import Mathlib

/-!
# Load-average LED monitor (`load.go`)

A shallow embedding of `load.go`: the policy table `colorsByLoad`, the startup scaling pass of
`main`, the lookup `getColorByLoad`, the command formatting of `setRingColor`, the sampler
`getLoadAverage`, the polling loop `loadAverageMonitor` and the signal goroutine of
`handleShutdown`.

Conventions of the embedding.

* A Go `float64` is a value of `Float64`: NaN, the two infinities, or a finite value carried as an
  exact rational.  Comparison `<` and `==` follow IEEE 754 (every comparison with NaN is false).
  The two zeros are one value (they compare equal in Go and are never printed by the modelled
  code).
* Arithmetic comes in two forms.  `Float64.round`, `Float64.mul64`, `Float64.div64` and
  `Float64.ofInt64` are the IEEE 754 operations: the exact result rounded to the nearest float64,
  ties to even, with overflow to an infinity and gradual underflow.  `colorsByLoad64` and
  `scaledColorsByLoad64` are the table as the program holds it, every literal and every product
  rounded.  `Float64.mul`, `Float64.ofInt`, `colorsByLoad` and `scaledColorsByLoad` are their
  unrounded forms, in which the decimal literals of the source and the products are exact; they
  carry the facts that do not depend on the value of a rounded threshold (order, end entries,
  distinct entries, multiplication by 4).
* A Go `int` is an `Int`; a Go `string` is a `String`.
* The global table is passed explicitly; the run-time panic of an out-of-range index is `none`.
* The file system and the clock are an explicit input: one `Tick` per loop iteration.
-/

namespace Nuc1

/-! ## float64 -/

/-- Values of a Go `float64`; finite values are exact rationals. -/
inductive Float64 where
  | nan
  | negInf
  | fin (q : ℚ)
  | posInf
deriving DecidableEq

namespace Float64

/-- Go `a < b` on float64 (false as soon as one side is NaN). -/
def lt : Float64 → Float64 → Bool
  | fin a, fin b => decide (a < b)
  | negInf, fin _ => true
  | negInf, posInf => true
  | fin _, posInf => true
  | _, _ => false

/-- Go `a <= b` on float64 (false as soon as one side is NaN). -/
def le : Float64 → Float64 → Bool
  | fin a, fin b => decide (a ≤ b)
  | negInf, nan => false
  | negInf, _ => true
  | fin _, posInf => true
  | posInf, posInf => true
  | _, _ => false

/-- Go `a == b` on float64 (NaN differs from everything, itself included). -/
def eq : Float64 → Float64 → Bool
  | fin a, fin b => decide (a = b)
  | negInf, negInf => true
  | posInf, posInf => true
  | _, _ => false

/-- Product of an infinity of sign `pos` with the finite value `q` (NaN when `q` is zero). -/
def infMul (pos : Bool) (q : ℚ) : Float64 :=
  if q = 0 then nan
  else if (decide (0 < q)) = pos then posInf else negInf

/-- The product `a * b` on float64 without rounding: the product of two finite values is their
exact product; the cases with an infinity or NaN are those of IEEE 754. -/
def mul : Float64 → Float64 → Float64
  | nan, _ => nan
  | _, nan => nan
  | fin a, fin b => fin (a * b)
  | posInf, fin b => infMul true b
  | negInf, fin b => infMul false b
  | fin a, posInf => infMul true a
  | fin a, negInf => infMul false a
  | posInf, posInf => posInf
  | negInf, negInf => posInf
  | posInf, negInf => negInf
  | negInf, posInf => negInf

/-- The conversion `float64(n)` of an `int` without rounding (exact for `|n| ≤ 2^53`). -/
def ofInt (n : Int) : Float64 := fin n

/-- Number of binary digits of `n`, by halving at most `fuel` times. -/
def bitLength : Nat → Nat → Nat
  | 0, _ => 0
  | fuel + 1, n => if n = 0 then 0 else bitLength fuel (n / 2) + 1

/-- The integer `k` with `2^k ≤ n / d < 2^(k+1)`, for positive `n` and `d`. -/
def floorLog2 (n d : Nat) : Int :=
  let k : Int := (bitLength n n : Int) - (bitLength d d : Int)
  if 0 ≤ k then (if n < d * 2 ^ k.toNat then k - 1 else k)
  else (if n * 2 ^ (-k).toNat < d then k - 1 else k)

/-- The integer nearest to `n / d`, a tie going to the even neighbour. -/
def roundHalfEven (n d : Nat) : Nat :=
  let m := n / d
  let r := n % d
  if 2 * r < d then m
  else if d < 2 * r then m + 1
  else if m % 2 = 0 then m else m + 1

/-- The float64 nearest to the rational `q` (IEEE 754 binary64, round to nearest, ties to even):
53 significant bits, exponents from -1022 (below which the spacing stays `2^-1074`) to 1023, and
an infinity once the rounded magnitude reaches `2^1024`. -/
def round (q : ℚ) : Float64 :=
  if q = 0 then fin 0
  else
    let n := q.num.natAbs
    let d := q.den
    let s : Int := 52 - max (floorLog2 n d) (-1022)
    let m : Nat :=
      if 0 ≤ s then roundHalfEven (n * 2 ^ s.toNat) d else roundHalfEven n (d * 2 ^ (-s).toNat)
    let v : ℚ :=
      if 0 ≤ s then (m : ℚ) / ((2 ^ s.toNat : Nat) : ℚ) else ((m * 2 ^ (-s).toNat : Nat) : ℚ)
    if ((2 ^ 1024 : Nat) : ℚ) ≤ v then (if 0 < q then posInf else negInf)
    else fin (if 0 < q then v else -v)

/-- A value as a float64: a finite value is rounded to the nearest float64.  This is what a
decimal literal of the source denotes. -/
def nearest : Float64 → Float64
  | fin q => round q
  | a => a

/-- Go `a * b` on float64: the exact product of two finite values rounded to the nearest
float64. -/
def mul64 : Float64 → Float64 → Float64
  | fin a, fin b => round (a * b)
  | a, b => a.mul b

/-- Go `a / b` on float64: the exact quotient of two finite values rounded to the nearest
float64; a zero divisor counts as `+0`. -/
def div64 : Float64 → Float64 → Float64
  | nan, _ => nan
  | _, nan => nan
  | fin a, fin b =>
    if b = 0 then (if a = 0 then nan else if 0 < a then posInf else negInf)
    else round (a / b)
  | fin _, posInf => fin 0
  | fin _, negInf => fin 0
  | posInf, fin b => if 0 ≤ b then posInf else negInf
  | negInf, fin b => if 0 ≤ b then negInf else posInf
  | _, _ => nan

/-- Go conversion `float64(n)` of an `int`: the nearest float64. -/
def ofInt64 (n : Int) : Float64 := round n

end Float64

/-! ## The policy table -/

/-- The Go struct `ledColorConfig`. -/
structure ledColorConfig where
  load : Float64
  color : String
  brightness : Int
  blink : String
deriving DecidableEq

/-- The zero value of `ledColorConfig` (`var prevColor ledColorConfig`). -/
def ledColorConfig.zero : ledColorConfig := ⟨.fin 0, "", 0, ""⟩

/-- Go `a != b` on `ledColorConfig`: the fields are compared one by one with `==`. -/
def ledColorConfig.ne (a b : ledColorConfig) : Bool :=
  !(a.load.eq b.load && decide (a.color = b.color) && decide (a.brightness = b.brightness)
    && decide (a.blink = b.blink))

/-- The static table `colorsByLoad`, as written in the source, each threshold being the decimal
number written. -/
def colorsByLoad : List ledColorConfig :=
  [ ⟨.fin 0, "white", 80, "none"⟩,
    ⟨.fin 0.02, "blue", 10, "none"⟩,
    ⟨.fin 0.05, "blue", 20, "none"⟩,
    ⟨.fin 0.10, "blue", 40, "none"⟩,
    ⟨.fin 0.15, "blue", 80, "none"⟩,
    ⟨.fin 0.25, "cyan", 50, "none"⟩,
    ⟨.fin 0.5, "green", 80, "none"⟩,
    ⟨.fin 0.75, "yellow", 60, "none"⟩,
    ⟨.fin 1.0, "pink", 60, "none"⟩,
    ⟨.fin 2.0, "red", 80, "none"⟩,
    ⟨.fin 4.0, "red", 100, "none"⟩,
    ⟨.fin 0, "red", 100, "fade_fast"⟩ ]

/-- The table `colorsByLoad` as the program holds it: each threshold is the float64 nearest to
the decimal literal of the source. -/
def colorsByLoad64 : List ledColorConfig :=
  colorsByLoad.map (fun e => { e with load := e.load.nearest })

/-- One iteration of the loop of `main`: `colorsByLoad[i].load *= cores`, where `mul` is the
multiplication `*`. -/
def scaleAt (mul : Float64 → Float64 → Float64) (cores : Float64)
    (table : List ledColorConfig) (i : Nat) : List ledColorConfig :=
  match table[i]? with
  | some e => table.set i { e with load := mul e.load cores }
  | none => table

/-- The loop of `main`: `for i, _ := range colorsByLoad { colorsByLoad[i].load *= cores }`, where
`mul` is the multiplication `*`. -/
def scaleTable (mul : Float64 → Float64 → Float64) (cores : Float64)
    (table : List ledColorConfig) : List ledColorConfig :=
  (List.range table.length).foldl (scaleAt mul cores) table

/-- The table `main` hands to the monitor when `runtime.NumCPU()` is `numCPU`:
`cores := float64(runtime.NumCPU())`, then the loop, in float64 arithmetic. -/
def scaledColorsByLoad64 (numCPU : Nat) : List ledColorConfig :=
  scaleTable Float64.mul64 (Float64.ofInt64 numCPU) colorsByLoad64

/-- The table `main` hands to the monitor when `runtime.NumCPU()` is `numCPU`, with the literals
and the products unrounded. -/
def scaledColorsByLoad (numCPU : Nat) : List ledColorConfig :=
  scaleTable Float64.mul (Float64.ofInt numCPU) colorsByLoad

/-- The `for _, i := range colorsByLoad` loop of `getColorByLoad` over the entries still to visit;
`none` when the loop ends without returning. -/
def getColorByLoad.scan (load : Float64) : List ledColorConfig → Option ledColorConfig
  | [] => none
  | i :: rest => if load.lt i.load then some i else getColorByLoad.scan load rest

/-- The function `getColorByLoad` on the table `table`; `none` is the index panic of
`colorsByLoad[len(colorsByLoad) - 1]` on an empty table. -/
def getColorByLoad (table : List ledColorConfig) (load : Float64) : Option ledColorConfig :=
  match getColorByLoad.scan load table with
  | some i => some i
  | none => if table.length = 0 then none else table[table.length - 1]?

/-! ## The device command -/

/-- The constant `ledDriverFile`. -/
def ledDriverFile : String := "/proc/acpi/nuc_led"

/-- The constant `loadAvgFile`. -/
def loadAvgFile : String := "/proc/loadavg"

/-- An operand of `fmt.Sprintf`. -/
inductive FmtArg where
  | int (n : Int)
  | str (s : String)

/-- The scan of `fmt.Sprintf` over the format, for the verbs `%d` (an `int` operand, printed in
decimal with a leading `-` when negative) and `%s` (a `string` operand, copied).  A verb whose
operand is missing or of the other type is outside the modelled fragment and is copied as is. -/
def sprintf.scan : List Char → List FmtArg → List Char
  | [], _ => []
  | [c], _ => [c]
  | c :: v :: rest, args =>
    if c = '%' then
      match v, args with
      | 'd', .int n :: args => (toString n).data ++ sprintf.scan rest args
      | 's', .str s :: args => s.data ++ sprintf.scan rest args
      | _, _ => c :: sprintf.scan (v :: rest) args
    else c :: sprintf.scan (v :: rest) args

/-- Go `fmt.Sprintf(format, args...)`, for the verbs `%d` and `%s`. -/
def sprintf (format : String) (args : List FmtArg) : String :=
  ⟨sprintf.scan format.data args⟩

/-- The command `setRingColor` builds:
`fmt.Sprintf("ring,%d,%s,%s", color.brightness, color.blink, color.color)`. -/
def ringCommand (color : ledColorConfig) : String :=
  sprintf "ring,%d,%s,%s" [.int color.brightness, .str color.blink, .str color.color]

/-- What one iteration of the monitor (or the shutdown handler) does to the outside world. -/
inductive Event where
  /-- `log("getLoadAverage error:", err)` -/
  | logLoadError (err : String)
  /-- `log("load:", load, "|", "color:", color)` -/
  | logColor (load : Float64) (color : ledColorConfig)
  /-- The call `setRingColor(color)`: `ioutil.WriteFile(filename, []byte(cmd), 0644)` was called
  and returned `err` (`none` is Go's `nil`). -/
  | writeFile (color : ledColorConfig) (filename : String) (cmd : String) (err : Option String)
  /-- `log("setRingColor error:", err)` -/
  | logWriteError (err : String)

/-- The function `setRingColor`; `writeErr` is what `ioutil.WriteFile` returns. -/
def setRingColor (color : ledColorConfig) (writeErr : Option String) : List Event :=
  let cmd := ringCommand color
  let err := writeErr
  match err with
  | some e => [.writeFile color ledDriverFile cmd err, .logWriteError e]
  | none => [.writeFile color ledDriverFile cmd err]

/-! ## The sampler -/

/-- Go `strings.Split(s, sep)` for a separator of one character, on the characters of `s`. -/
def splitChars (sep : Char) : List Char → List (List Char)
  | [] => [[]]
  | c :: cs =>
    if c = sep then [] :: splitChars sep cs
    else
      match splitChars sep cs with
      | [] => [[c]]
      | w :: ws => (c :: w) :: ws

/-- Go `strings.Split(s, " ")`. -/
def stringsSplit (s : String) : List String :=
  (splitChars ' ' s.data).map String.mk

/-- Value of a run of decimal digits. -/
def digitsValue (ds : List Char) : Nat :=
  ds.foldl (fun acc d => 10 * acc + (d.toNat - '0'.toNat)) 0

/-- An optional sign in front of a number: whether it is `-`, and what follows it. -/
def readSign : List Char → Bool × List Char
  | '+' :: r => (false, r)
  | '-' :: r => (true, r)
  | r => (false, r)

/-- The words `strconv.ParseFloat` takes for the special values: `inf` and `infinity` with an
optional sign, and `nan` without one, in any letter case. -/
def parseSpecial (s : List Char) : Option Float64 :=
  let body := (readSign s).2.map Char.toLower
  if body = "inf".data ∨ body = "infinity".data then
    if s.head? = some 'i' ∨ s.head? = some 'I' ∨ s.head? = some '+' then some .posInf
    else if s.head? = some '-' then some .negInf
    else none
  else if s.map Char.toLower = "nan".data then some .nan
  else none

/-- The exponent part of a decimal number: empty, or `e`/`E`, an optional sign and at least one
digit, up to the end of the text. -/
def parseExponent : List Char → Option Int
  | [] => some 0
  | e :: t =>
    if e = 'e' ∨ e = 'E' then
      let (neg, t1) := readSign t
      let (ds, rest) := t1.span Char.isDigit
      if ds = [] ∨ rest ≠ [] then none
      else some (if neg then -(digitsValue ds : Int) else (digitsValue ds : Int))
    else none

/-- The reading of a decimal number by `strconv.ParseFloat`: an optional sign, digits with at
most one point and at least one digit, an optional exponent, up to the end of the text.  The
result is the mantissa (all the digits read), the power of ten to apply to it, and whether the
number is negative. -/
def readFloat (s : List Char) : Option (Nat × Int × Bool) :=
  let (neg, r) := readSign s
  let (ip, r1) := r.span Char.isDigit
  let (fp, r2) :=
    match r1 with
    | '.' :: t => t.span Char.isDigit
    | _ => ([], r1)
  if ip.length + fp.length = 0 then none
  else
    match parseExponent r2 with
    | none => none
    | some e => some (digitsValue (ip ++ fp), e - (fp.length : Int), neg)

/-- The exact value of a decimal number read by `readFloat`. -/
def decimalValue (mantissa : Nat) (exp : Int) (neg : Bool) : ℚ :=
  if neg then -((mantissa : ℚ) * (10 : ℚ) ^ exp) else (mantissa : ℚ) * (10 : ℚ) ^ exp

/-- Go `strconv.ParseFloat(s, 64)`, from the library's documentation, for decimal numbers and the
special values; `Except.error` is a non-nil error (`ErrSyntax`, or `ErrRange` when the value
rounds to an infinity).  The finite result is the exact value written, not its nearest float64.
Hexadecimal mantissas and underscores between digits, which the library also takes, are not
modelled and are reported as syntax errors. -/
def parseFloat (s : String) : Except String Float64 :=
  match parseSpecial s.data with
  | some v => .ok v
  | none =>
    match readFloat s.data with
    | none => .error "invalid syntax"
    | some (mantissa, exp, neg) =>
      if (2 : ℚ) ^ 1024 - (2 : ℚ) ^ 970 ≤ |decimalValue mantissa exp neg| then
        .error "value out of range"
      else .ok (.fin (decimalValue mantissa exp neg))

/-- The function `getLoadAverage`.  `parseFloat` stands for `strconv.ParseFloat(·, 64)` and
`readFile` is what `ioutil.ReadFile(loadAvgFile)` returns.  The result is Go's pair
`(float64, error)`, `none` being the `nil` error. -/
def getLoadAverage (parseFloat : String → Except String Float64)
    (readFile : Except String String) : Float64 × Option String :=
  match readFile with
  | .error err => (.fin (-1), some err)
  | .ok load =>
    let ls := stringsSplit load
    if ls.length < 1 then (.fin (-1), some "no data")
    else
      match parseFloat (ls.headD "") with
      | .error err => (.fin (-1), some err)
      | .ok lv => (lv, none)

/-! ## The monitor loop -/

/-- The outside world during one iteration of the loop of `loadAverageMonitor`: what
`getLoadAverage()` returns, and what `ioutil.WriteFile` returns if `setRingColor` is called. -/
structure Tick where
  sample : Float64 × Option String
  writeErr : Option String

/-- One iteration of the loop of `loadAverageMonitor` (the sleep apart): the new value of
`prevColor` and the events of the iteration; `none` is the panic of `getColorByLoad`. -/
def monitorTick (table : List ledColorConfig) (prevColor : ledColorConfig) (tick : Tick) :
    Option (ledColorConfig × List Event) :=
  match tick.sample with
  | (_, some err) => some (prevColor, [.logLoadError err])
  | (load, none) =>
    match getColorByLoad table load with
    | none => none
    | some color =>
      if color.ne prevColor then
        some (color, .logColor load color :: setRingColor color tick.writeErr)
      else some (prevColor, [])

/-- The loop of `loadAverageMonitor` run over the ticks `ticks`, from `prevColor`. -/
def loadAverageMonitor.loop (table : List ledColorConfig) :
    ledColorConfig → List Tick → Option (ledColorConfig × List Event)
  | prevColor, [] => some (prevColor, [])
  | prevColor, tick :: ticks =>
    match monitorTick table prevColor tick with
    | none => none
    | some (color, events) =>
      match loadAverageMonitor.loop table color ticks with
      | none => none
      | some (last, more) => some (last, events ++ more)

/-- The function `loadAverageMonitor` over a finite run of ticks: `prevColor` starts as the zero
value. -/
def loadAverageMonitor (table : List ledColorConfig) (ticks : List Tick) :
    Option (ledColorConfig × List Event) :=
  loadAverageMonitor.loop table ledColorConfig.zero ticks

/-- The states passed to `setRingColor`, in order. -/
def writtenStates : List Event → List ledColorConfig
  | [] => []
  | .writeFile color _ _ _ :: rest => color :: writtenStates rest
  | _ :: rest => writtenStates rest

/-- The command strings handed to `ioutil.WriteFile`, in order. -/
def writtenCommands : List Event → List String
  | [] => []
  | .writeFile _ _ cmd _ :: rest => cmd :: writtenCommands rest
  | _ :: rest => writtenCommands rest

/-! ## The shutdown handler -/

/-- What the goroutine started by `handleShutdown` does once a signal arrives: the signal it
logs with `log("shutting down", "|", "signal:", sig)`, the events of its call of `setRingColor`,
and the code it passes to `os.Exit`. -/
structure ShutdownRun where
  signal : String
  events : List Event
  exitCode : Int

/-- The goroutine of `handleShutdown` on the signal `sig`; `writeErr` is what `ioutil.WriteFile`
returns during its call of `setRingColor`. -/
def handleShutdown (sig : String) (writeErr : Option String) : ShutdownRun :=
  ⟨sig, setRingColor ⟨.fin 0, "off", 0, "none"⟩ writeErr, 0⟩

/-! ## Notions of the specification -/

/-- The visual state of an entry: its colour, brightness and blink pattern, without the
threshold. -/
def ledColorConfig.visual (e : ledColorConfig) : String × Int × String :=
  (e.color, e.brightness, e.blink)

/-- An entry with its threshold multiplied by `cores` (unrounded) and its other fields kept. -/
def ledColorConfig.scaled (cores : Float64) (e : ledColorConfig) : ledColorConfig :=
  ⟨e.load.mul cores, e.color, e.brightness, e.blink⟩

/-- An entry with its threshold multiplied by `cores` with the multiplication `mul`, and its
other fields kept. -/
def ledColorConfig.scaledWith (mul : Float64 → Float64 → Float64) (cores : Float64)
    (e : ledColorConfig) : ledColorConfig :=
  ⟨mul e.load cores, e.color, e.brightness, e.blink⟩

/-- A list with adjacent duplicates removed: of each run of equal neighbours one is kept. -/
def dedupAdjacent {α : Type} [DecidableEq α] : List α → List α
  | [] => []
  | [a] => [a]
  | a :: b :: rest =>
    if a = b then dedupAdjacent (b :: rest) else a :: dedupAdjacent (b :: rest)

/-- The state a tick resolves to: none for a tick whose sample failed. -/
def resolvedState (table : List ledColorConfig) (tick : Tick) : Option ledColorConfig :=
  match tick.sample with
  | (_, some _) => none
  | (load, none) => getColorByLoad table load

/-- The resolved states of the successful ticks, in order. -/
def resolvedStates (table : List ledColorConfig) (ticks : List Tick) : List ledColorConfig :=
  ticks.filterMap (resolvedState table)

/-- The first whitespace-separated token of a text (empty when the text has none). -/
def firstWhitespaceToken (s : String) : String :=
  ⟨(s.data.dropWhile Char.isWhitespace).takeWhile (fun c => !c.isWhitespace)⟩

/-- The text before the first space character (the whole text when it has no space). -/
def firstSpaceField (s : String) : String :=
  ⟨s.data.takeWhile (fun c => !decide (c = ' '))⟩

/-- The loop of `getColorByLoad` again, returning the table position at which it returns instead
of the entry; `none` when the loop ends without returning. -/
def getColorByLoad.scanIndex (load : Float64) : List ledColorConfig → Option Nat
  | [] => none
  | i :: rest =>
    if load.lt i.load then some 0 else (getColorByLoad.scanIndex load rest).map (· + 1)

/-- The table position of the entry `getColorByLoad` returns: the position at which the loop
returns, else `len(colorsByLoad) - 1`; `none` is the index panic on an empty table. -/
def getColorIndexByLoad (table : List ledColorConfig) (load : Float64) : Option Nat :=
  match getColorByLoad.scanIndex load table with
  | some k => some k
  | none => if table.length = 0 then none else some (table.length - 1)

/-- The table with the threshold of its last entry replaced by `threshold`. -/
def replaceLastLoad (threshold : Float64) : List ledColorConfig → List ledColorConfig
  | [] => []
  | [e] => [{ e with load := threshold }]
  | e :: e2 :: rest => e :: replaceLastLoad threshold (e2 :: rest)

/-- No two neighbours of the list are equal. -/
def AdjacentDistinct {α : Type} : List α → Prop
  | [] => True
  | [_] => True
  | a :: b :: rest => a ≠ b ∧ AdjacentDistinct (b :: rest)

/-! ## Lookup: helper lemmas -/

theorem scan_eq_none {load : Float64} {table : List ledColorConfig}
    (h : getColorByLoad.scan load table = none) : ∀ e ∈ table, load.lt e.load = false := by
  induction table with
  | nil => intro e he; cases he
  | cons a rest ih =>
    unfold getColorByLoad.scan at h
    by_cases ha : load.lt a.load = true
    · simp [ha] at h
    · simp only [ha] at h
      intro e he
      rcases List.mem_cons.mp he with rfl | he
      · simpa using ha
      · exact ih h e he

theorem scan_eq_some {load : Float64} {table : List ledColorConfig} {e : ledColorConfig}
    (h : getColorByLoad.scan load table = some e) :
    ∃ i, ∃ hi : i < table.length, table[i] = e ∧ load.lt e.load = true ∧
      ∀ j, ∀ hj : j < table.length, j < i → load.lt (table[j]).load = false := by
  induction table with
  | nil => simp [getColorByLoad.scan] at h
  | cons a rest ih =>
    unfold getColorByLoad.scan at h
    by_cases ha : load.lt a.load = true
    · simp only [ha, if_true, Option.some.injEq] at h
      subst h
      exact ⟨0, by simp, rfl, ha, fun j _ hj => absurd hj (Nat.not_lt_zero j)⟩
    · simp only [ha] at h
      obtain ⟨i, hi, hget, hlt, hbefore⟩ := ih h
      refine ⟨i + 1, by simpa using hi, by simpa using hget, hlt, ?_⟩
      intro j hj hji
      cases j with
      | zero => simpa using ha
      | succ k =>
        have hk : k < rest.length := by simpa using hj
        simpa using hbefore k hk (by omega)

theorem getColorByLoad_index (table : List ledColorConfig) (load : Float64)
    (hne : table ≠ []) :
    ∃ i, ∃ hi : i < table.length,
      getColorByLoad table load = some table[i] ∧
      (∀ j, ∀ hj : j < table.length, j < i → load.lt (table[j]).load = false) ∧
      (load.lt (table[i]).load = true ∨
        (i = table.length - 1 ∧ ∀ e ∈ table, load.lt e.load = false)) := by
  have hpos : 0 < table.length := List.length_pos.mpr hne
  cases hscan : getColorByLoad.scan load table with
  | some e =>
    obtain ⟨i, hi, hget, hlt, hbefore⟩ := scan_eq_some hscan
    refine ⟨i, hi, ?_, hbefore, Or.inl (by rw [hget]; exact hlt)⟩
    simp [getColorByLoad, hscan, hget]
  | none =>
    have hall := scan_eq_none hscan
    refine ⟨table.length - 1, by omega, ?_, ?_, Or.inr ⟨rfl, hall⟩⟩
    · have h0 : table.length ≠ 0 := by omega
      have hlast : table.length - 1 < table.length := by omega
      simp [getColorByLoad, hscan, h0, List.getElem?_eq_getElem hlast]
    · intro j hj _
      exact hall _ (List.getElem_mem hj)

/-! ## Scaling: helper lemmas -/

theorem scaleAt_length (mul : Float64 → Float64 → Float64) (cores : Float64)
    (table : List ledColorConfig) (i : Nat) :
    (scaleAt mul cores table i).length = table.length := by
  unfold scaleAt
  cases table[i]? <;> simp

theorem scaleAt_getElem? (mul : Float64 → Float64 → Float64) (cores : Float64)
    (table : List ledColorConfig) (i j : Nat) :
    (scaleAt mul cores table i)[j]? =
      if i = j then (table[j]?).map (ledColorConfig.scaledWith mul cores) else table[j]? := by
  unfold scaleAt
  by_cases hij : i = j
  · subst hij
    cases hget : table[i]? with
    | none => simp [hget]
    | some e =>
      have hi : i < table.length := by
        by_contra hcon
        rw [List.getElem?_eq_none (by omega)] at hget
        cases hget
      simp [List.getElem?_set, hi, ledColorConfig.scaledWith]
  · cases hget : table[i]? with
    | none => simp [hij]
    | some e => simp [List.getElem?_set, hij]

theorem foldl_scaleAt_getElem? (mul : Float64 → Float64 → Float64) (cores : Float64)
    (table : List ledColorConfig) (k j : Nat) :
    ((List.range k).foldl (scaleAt mul cores) table)[j]? =
      if j < k then (table[j]?).map (ledColorConfig.scaledWith mul cores) else table[j]? := by
  induction k with
  | zero => simp
  | succ k ih =>
    rw [List.range_succ, List.foldl_append, List.foldl_cons, List.foldl_nil, scaleAt_getElem?, ih]
    by_cases hkj : k = j
    · subst hkj
      simp
    · by_cases hjk : j < k
      · have : j < k + 1 := by omega
        simp [hkj, hjk, this]
      · have : ¬ j < k + 1 := by omega
        simp [hkj, hjk, this]

theorem scaleTable_eq_map (mul : Float64 → Float64 → Float64) (cores : Float64)
    (table : List ledColorConfig) :
    scaleTable mul cores table = table.map (ledColorConfig.scaledWith mul cores) := by
  apply List.ext_getElem?
  intro j
  rw [scaleTable, foldl_scaleAt_getElem?, List.getElem?_map]
  by_cases hj : j < table.length
  · simp [hj]
  · simp [hj, List.getElem?_eq_none (Nat.le_of_not_lt hj)]

theorem scaledColorsByLoad_eq_map (numCPU : Nat) :
    scaledColorsByLoad numCPU =
      colorsByLoad.map (ledColorConfig.scaled (Float64.ofInt numCPU)) :=
  scaleTable_eq_map Float64.mul _ _

theorem scaledColorsByLoad64_eq_map (numCPU : Nat) :
    scaledColorsByLoad64 numCPU =
      colorsByLoad64.map (ledColorConfig.scaledWith Float64.mul64 (Float64.ofInt64 numCPU)) :=
  scaleTable_eq_map Float64.mul64 _ _

theorem scaledColorsByLoad_four :
    scaledColorsByLoad 4 =
      [ ⟨.fin 0, "white", 80, "none"⟩,
        ⟨.fin 0.08, "blue", 10, "none"⟩,
        ⟨.fin 0.2, "blue", 20, "none"⟩,
        ⟨.fin 0.4, "blue", 40, "none"⟩,
        ⟨.fin 0.6, "blue", 80, "none"⟩,
        ⟨.fin 1, "cyan", 50, "none"⟩,
        ⟨.fin 2, "green", 80, "none"⟩,
        ⟨.fin 3, "yellow", 60, "none"⟩,
        ⟨.fin 4, "pink", 60, "none"⟩,
        ⟨.fin 8, "red", 80, "none"⟩,
        ⟨.fin 16, "red", 100, "none"⟩,
        ⟨.fin 0, "red", 100, "fade_fast"⟩ ] := by
  simp [scaledColorsByLoad_eq_map, ledColorConfig.scaled, Float64.ofInt, colorsByLoad,
    Float64.mul]
  norm_num

theorem scaledColorsByLoad_visual (numCPU : Nat) :
    (scaledColorsByLoad numCPU).map ledColorConfig.visual =
      colorsByLoad.map ledColorConfig.visual := by
  rw [scaledColorsByLoad_eq_map, List.map_map]
  rfl

theorem colorsByLoad_visual_nodup : (colorsByLoad.map ledColorConfig.visual).Nodup := by
  decide

theorem scaledColorsByLoad_nodup (numCPU : Nat) : (scaledColorsByLoad numCPU).Nodup := by
  apply List.Nodup.of_map ledColorConfig.visual
  rw [scaledColorsByLoad_visual]
  exact colorsByLoad_visual_nodup

theorem scaledColorsByLoad_ne_nil (numCPU : Nat) : scaledColorsByLoad numCPU ≠ [] := by
  rw [scaledColorsByLoad_eq_map]
  simp [colorsByLoad]

theorem Float64.le_lt_trans {a b c : Float64} (hab : a.le b = true) (hbc : b.lt c = true) :
    a.lt c = true := by
  cases a <;> cases b <;> cases c <;> simp_all [Float64.le, Float64.lt]
  exact lt_of_le_of_lt hab hbc

theorem getColorByLoad_index_mono (table : List ledColorConfig) (hne : table ≠ [])
    (l1 l2 : Float64) (hle : l1.le l2 = true) :
    ∃ i1 i2, ∃ h1 : i1 < table.length, ∃ h2 : i2 < table.length,
      getColorByLoad table l1 = some table[i1] ∧ getColorByLoad table l2 = some table[i2] ∧
      i1 ≤ i2 := by
  obtain ⟨i1, h1, hget1, hbefore1, -⟩ := getColorByLoad_index table l1 hne
  obtain ⟨i2, h2, hget2, -, hat2⟩ := getColorByLoad_index table l2 hne
  refine ⟨i1, i2, h1, h2, hget1, hget2, ?_⟩
  by_contra hcon
  have hlt : i2 < i1 := Nat.lt_of_not_le hcon
  rcases hat2 with hat | ⟨hlast, -⟩
  · have := Float64.le_lt_trans hle hat
    rw [hbefore1 i2 h2 hlt] at this
    cases this
  · omega

theorem getColorByLoad_four_load_zero :
    getColorByLoad (scaledColorsByLoad 4) (.fin 0.0) = some ⟨.fin 0.08, "blue", 10, "none"⟩ := by
  rw [scaledColorsByLoad_four]
  norm_num [getColorByLoad, getColorByLoad.scan, Float64.lt]

theorem getColorByLoad_four_load_03 :
    getColorByLoad (scaledColorsByLoad 4) (.fin 0.3) = some ⟨.fin 0.4, "blue", 40, "none"⟩ := by
  rw [scaledColorsByLoad_four]
  norm_num [getColorByLoad, getColorByLoad.scan, Float64.lt]

theorem getColorByLoad_four_load_09 :
    getColorByLoad (scaledColorsByLoad 4) (.fin 0.9) = some ⟨.fin 1, "cyan", 50, "none"⟩ := by
  rw [scaledColorsByLoad_four]
  norm_num [getColorByLoad, getColorByLoad.scan, Float64.lt]

theorem getColorByLoad_four_load_3 :
    getColorByLoad (scaledColorsByLoad 4) (.fin 3.0) = some ⟨.fin 4, "pink", 60, "none"⟩ := by
  rw [scaledColorsByLoad_four]
  norm_num [getColorByLoad, getColorByLoad.scan, Float64.lt]

/-! ## Monitor: helper lemmas -/

theorem Float64.eq_iff (a b : Float64) (ha : a ≠ .nan) : a.eq b = true ↔ a = b := by
  cases a <;> cases b <;> simp_all [Float64.eq]

theorem ledColorConfig.ne_iff (a b : ledColorConfig) (ha : a.load ≠ .nan) :
    a.ne b = true ↔ a ≠ b := by
  obtain ⟨al, ac, ab, ak⟩ := a
  obtain ⟨bl, bc, bb, bk⟩ := b
  have hl := Float64.eq_iff al bl ha
  by_cases h : al.eq bl = true
  · have heq := hl.mp h
    subst heq
    simp [ledColorConfig.ne, h]
    tauto
  · have hne : al ≠ bl := fun heq => h (hl.mpr heq)
    simp [ledColorConfig.ne, h, hne]

theorem colorsByLoad_finite : ∀ e ∈ colorsByLoad, ∃ q, e.load = .fin q := by
  intro e he
  simp only [colorsByLoad, List.mem_cons, List.mem_singleton, List.not_mem_nil, or_false] at he
  rcases he with h | h | h | h | h | h | h | h | h | h | h | h <;> exact ⟨_, by rw [h]⟩

theorem colorsByLoad_color_ne_empty : ∀ e ∈ colorsByLoad, e.color ≠ "" := by
  decide

theorem mem_scaledColorsByLoad {numCPU : Nat} {e : ledColorConfig}
    (he : e ∈ scaledColorsByLoad numCPU) :
    ∃ e0 ∈ colorsByLoad, e = e0.scaled (Float64.ofInt numCPU) := by
  rw [scaledColorsByLoad_eq_map, List.mem_map] at he
  obtain ⟨e0, h0, rfl⟩ := he
  exact ⟨e0, h0, rfl⟩

theorem scaledColorsByLoad_not_nan (numCPU : Nat) :
    ∀ e ∈ scaledColorsByLoad numCPU, e.load ≠ .nan := by
  intro e he
  obtain ⟨e0, h0, rfl⟩ := mem_scaledColorsByLoad he
  obtain ⟨q, hq⟩ := colorsByLoad_finite e0 h0
  simp [ledColorConfig.scaled, hq, Float64.ofInt, Float64.mul]

theorem scaledColorsByLoad_ne_zero (numCPU : Nat) :
    ∀ e ∈ scaledColorsByLoad numCPU, e ≠ ledColorConfig.zero := by
  intro e he hz
  obtain ⟨e0, h0, rfl⟩ := mem_scaledColorsByLoad he
  apply colorsByLoad_color_ne_empty e0 h0
  have := congrArg ledColorConfig.color hz
  simpa [ledColorConfig.scaled, ledColorConfig.zero] using this

theorem getColorByLoad_mem {table : List ledColorConfig} {load : Float64} {e : ledColorConfig}
    (h : getColorByLoad table load = some e) : e ∈ table := by
  by_cases hne : table = []
  · subst hne
    simp [getColorByLoad, getColorByLoad.scan] at h
  · obtain ⟨i, hi, hget, -, -⟩ := getColorByLoad_index table load hne
    rw [hget] at h
    cases h
    exact List.getElem_mem hi

theorem getColorByLoad_isSome {table : List ledColorConfig} (hne : table ≠ []) (load : Float64) :
    ∃ e, getColorByLoad table load = some e ∧ e ∈ table := by
  obtain ⟨i, hi, hget, -, -⟩ := getColorByLoad_index table load hne
  exact ⟨_, hget, List.getElem_mem hi⟩

theorem writtenStates_append (a b : List Event) :
    writtenStates (a ++ b) = writtenStates a ++ writtenStates b := by
  induction a with
  | nil => rfl
  | cons e rest ih => cases e <;> simp [writtenStates, ih]

theorem writtenStates_setRingColor (color : ledColorConfig) (writeErr : Option String) :
    writtenStates (setRingColor color writeErr) = [color] := by
  cases writeErr <;> simp [setRingColor, writtenStates]

theorem dedupAdjacent_cons_cons_ne {α : Type} [DecidableEq α] {a b : α} (l : List α)
    (h : a ≠ b) : dedupAdjacent (a :: b :: l) = a :: dedupAdjacent (b :: l) := by
  simp [dedupAdjacent, h]

theorem dedupAdjacent_cons_cons_eq {α : Type} [DecidableEq α] (a : α) (l : List α) :
    dedupAdjacent (a :: a :: l) = dedupAdjacent (a :: l) := by
  simp [dedupAdjacent]

theorem dedupAdjacent_replicate {α : Type} [DecidableEq α] (a : α) (n : Nat) :
    dedupAdjacent (List.replicate (n + 1) a) = [a] := by
  induction n with
  | zero => rfl
  | succ n ih =>
    rw [List.replicate_succ, List.replicate_succ, dedupAdjacent_cons_cons_eq,
      ← List.replicate_succ, ih]

/-- The loop of the monitor never panics on a non-empty table, and from any `prevColor` the
states it writes are the resolved states with adjacent duplicates removed, `prevColor` counting
as the state before the first. -/
theorem loop_writtenStates (table : List ledColorConfig) (hne : table ≠ [])
    (hnan : ∀ e ∈ table, e.load ≠ .nan) (ticks : List Tick) :
    ∀ prevColor, ∃ last events,
      loadAverageMonitor.loop table prevColor ticks = some (last, events) ∧
      prevColor :: writtenStates events =
        dedupAdjacent (prevColor :: resolvedStates table ticks) := by
  induction ticks with
  | nil =>
    intro prevColor
    exact ⟨prevColor, [], rfl, rfl⟩
  | cons tick ticks ih =>
    intro prevColor
    obtain ⟨⟨load, err⟩, writeErr⟩ := tick
    cases err with
    | some err =>
      obtain ⟨last, events, hloop, hw⟩ := ih prevColor
      refine ⟨last, .logLoadError err :: events, ?_, ?_⟩
      · simp [loadAverageMonitor.loop, monitorTick, hloop]
      · simpa [writtenStates, resolvedStates, resolvedState] using hw
    | none =>
      obtain ⟨color, hcolor, hmem⟩ := getColorByLoad_isSome hne load
      have hres : resolvedStates table (⟨(load, none), writeErr⟩ :: ticks) =
          color :: resolvedStates table ticks := by
        simp [resolvedStates, resolvedState, hcolor]
      rw [hres]
      by_cases hchange : color.ne prevColor = true
      · have hneq : prevColor ≠ color :=
          fun h => (ledColorConfig.ne_iff color prevColor (hnan color hmem)).mp hchange h.symm
        obtain ⟨last, events, hloop, hw⟩ := ih color
        refine ⟨last, (.logColor load color :: setRingColor color writeErr) ++ events, ?_, ?_⟩
        · simp [loadAverageMonitor.loop, monitorTick, hcolor, hchange, hloop]
        · rw [dedupAdjacent_cons_cons_ne _ hneq, ← hw, writtenStates_append]
          simp [writtenStates, writtenStates_setRingColor]
      · have heq : color = prevColor := by
          by_contra hcon
          exact hchange ((ledColorConfig.ne_iff color prevColor (hnan color hmem)).mpr hcon)
        obtain ⟨last, events, hloop, hw⟩ := ih prevColor
        refine ⟨last, events, ?_, ?_⟩
        · simp [loadAverageMonitor.loop, monitorTick, hcolor, hchange, hloop]
        · rw [heq, dedupAdjacent_cons_cons_eq]
          exact hw

theorem resolvedStates_mem {table : List ledColorConfig} {ticks : List Tick}
    {e : ledColorConfig} (he : e ∈ resolvedStates table ticks) : e ∈ table := by
  simp only [resolvedStates, List.mem_filterMap] at he
  obtain ⟨⟨⟨load, err⟩, writeErr⟩, -, hres⟩ := he
  cases err with
  | some err => simp [resolvedState] at hres
  | none => exact getColorByLoad_mem (by simpa [resolvedState] using hres)

theorem dedupAdjacent_cons_of_not_mem {α : Type} [DecidableEq α] {a : α} :
    ∀ l : List α, a ∉ l → dedupAdjacent (a :: l) = a :: dedupAdjacent l
  | [], _ => rfl
  | _ :: l, h => dedupAdjacent_cons_cons_ne l (fun hab => h (hab ▸ List.mem_cons_self _ _))

theorem loadAverageMonitor_writtenStates (table : List ledColorConfig) (hne : table ≠ [])
    (hnan : ∀ e ∈ table, e.load ≠ .nan) (hzero : ledColorConfig.zero ∉ table)
    (ticks : List Tick) :
    ∃ last events, loadAverageMonitor table ticks = some (last, events) ∧
      writtenStates events = dedupAdjacent (resolvedStates table ticks) := by
  obtain ⟨last, events, hloop, hw⟩ := loop_writtenStates table hne hnan ticks ledColorConfig.zero
  refine ⟨last, events, hloop, ?_⟩
  rw [dedupAdjacent_cons_of_not_mem _ (fun h => hzero (resolvedStates_mem h))] at hw
  exact List.tail_eq_of_cons_eq hw

theorem resolvedStates_same (table : List ledColorConfig) (s : ledColorConfig) :
    ∀ ticks : List Tick, (∀ t ∈ ticks, resolvedState table t = some s) →
      resolvedStates table ticks = List.replicate ticks.length s
  | [], _ => rfl
  | t :: ticks, h => by
    have ht := h t (List.mem_cons_self _ _)
    have ih := resolvedStates_same table s ticks (fun u hu => h u (List.mem_cons_of_mem _ hu))
    unfold resolvedStates at ih ⊢
    rw [List.filterMap_cons, ht, ih]
    rfl

theorem ringCommand_eq (color : ledColorConfig) :
    ringCommand color =
      "ring," ++ toString color.brightness ++ "," ++ color.blink ++ "," ++ color.color := by
  apply String.ext
  simp [ringCommand, sprintf, sprintf.scan, String.data_append]

theorem writtenCommands_setRingColor (color : ledColorConfig) (writeErr : Option String) :
    writtenCommands (setRingColor color writeErr) = [ringCommand color] := by
  cases writeErr <;> simp [setRingColor, writtenCommands]

/-! ## Sampler: helper lemmas -/

theorem splitChars_head (sep : Char) (l : List Char) :
    ∃ ws, splitChars sep l = l.takeWhile (fun c => !decide (c = sep)) :: ws := by
  induction l with
  | nil => exact ⟨[], rfl⟩
  | cons c cs ih =>
    obtain ⟨ws, hws⟩ := ih
    by_cases hc : c = sep
    · exact ⟨splitChars sep cs, by simp [splitChars, hc]⟩
    · exact ⟨ws, by simp [splitChars, hc, hws]⟩

theorem stringsSplit_head (s : String) :
    ∃ rest, stringsSplit s = firstSpaceField s :: rest := by
  obtain ⟨ws, hws⟩ := splitChars_head ' ' s.data
  exact ⟨ws.map String.mk, by simp [stringsSplit, hws, firstSpaceField]⟩

theorem getLoadAverage_ok_eq (parse : String → Except String Float64) (content : String) :
    getLoadAverage parse (.ok content) =
      match parse (firstSpaceField content) with
      | .error err => (.fin (-1), some err)
      | .ok lv => (lv, none) := by
  obtain ⟨rest, hrest⟩ := stringsSplit_head content
  simp [getLoadAverage, hrest]

theorem parseFloat_052 : parseFloat "0.52" = .ok (.fin 0.52) := by
  have h1 : parseSpecial "0.52".data = none := by rfl
  have h2 : readFloat "0.52".data = some (52, -2, false) := by rfl
  have h3 : ¬ ((2 : ℚ) ^ 1024 - (2 : ℚ) ^ 970 ≤ |decimalValue 52 (-2) false|) := by
    rw [abs_of_nonneg (by simp [decimalValue]; positivity)]
    norm_num [decimalValue]
  simp only [parseFloat, h1, h2, if_neg h3]
  norm_num [decimalValue]

theorem parseFloat_052_newline : parseFloat "0.52\n" = .error "invalid syntax" := by
  have h1 : parseSpecial "0.52\n".data = none := by rfl
  have h2 : readFloat "0.52\n".data = none := by rfl
  simp only [parseFloat, h1, h2]

theorem parseFloat_empty : parseFloat "" = .error "invalid syntax" := by
  have h1 : parseSpecial "".data = none := by rfl
  have h2 : readFloat "".data = none := by rfl
  simp only [parseFloat, h1, h2]

/-! ## The scaled table: order and end entries -/

theorem Float64.mul_fin_lt {a b : Float64} {c : ℚ} (hc : 0 < c) (h : a.lt b = true) :
    (a.mul (.fin c)).lt (b.mul (.fin c)) = true := by
  cases a <;> cases b <;>
    simp_all [Float64.lt, Float64.mul, Float64.infMul, hc.ne']

theorem Float64.mul_fin_le {a b : Float64} {c : ℚ} (hc : 0 < c) (h : a.le b = true) :
    (a.mul (.fin c)).le (b.mul (.fin c)) = true := by
  cases a <;> cases b <;>
    simp_all [Float64.le, Float64.mul, Float64.infMul, hc.ne']

theorem Float64.le_of_lt {a b : Float64} (h : a.lt b = true) : a.le b = true := by
  cases a <;> cases b <;> simp_all [Float64.le, Float64.lt]
  exact h.le

theorem Float64.lt_le_trans {a b c : Float64} (hab : a.lt b = true) (hbc : b.le c = true) :
    a.lt c = true := by
  cases a <;> cases b <;> cases c <;> simp_all [Float64.le, Float64.lt]
  exact lt_of_lt_of_le hab hbc

theorem Float64.not_lt_iff_le {a : Float64} (b : ℚ) (ha : a ≠ .nan) :
    a.lt (.fin b) = false ↔ (Float64.fin b).le a = true := by
  cases a <;> simp_all [Float64.le, Float64.lt]

theorem scaledColorsByLoad_explicit (n : Nat) :
    scaledColorsByLoad n =
      [ ⟨.fin (0 * ((n : ℤ) : ℚ)), "white", 80, "none"⟩,
        ⟨.fin (0.02 * ((n : ℤ) : ℚ)), "blue", 10, "none"⟩,
        ⟨.fin (0.05 * ((n : ℤ) : ℚ)), "blue", 20, "none"⟩,
        ⟨.fin (0.10 * ((n : ℤ) : ℚ)), "blue", 40, "none"⟩,
        ⟨.fin (0.15 * ((n : ℤ) : ℚ)), "blue", 80, "none"⟩,
        ⟨.fin (0.25 * ((n : ℤ) : ℚ)), "cyan", 50, "none"⟩,
        ⟨.fin (0.5 * ((n : ℤ) : ℚ)), "green", 80, "none"⟩,
        ⟨.fin (0.75 * ((n : ℤ) : ℚ)), "yellow", 60, "none"⟩,
        ⟨.fin (1.0 * ((n : ℤ) : ℚ)), "pink", 60, "none"⟩,
        ⟨.fin (2.0 * ((n : ℤ) : ℚ)), "red", 80, "none"⟩,
        ⟨.fin (4.0 * ((n : ℤ) : ℚ)), "red", 100, "none"⟩,
        ⟨.fin (0 * ((n : ℤ) : ℚ)), "red", 100, "fade_fast"⟩ ] := by
  rw [scaledColorsByLoad_eq_map]
  rfl

theorem scaledColorsByLoad_length (n : Nat) : (scaledColorsByLoad n).length = 12 := by
  rw [scaledColorsByLoad_explicit]
  rfl

theorem scaledColorsByLoad_first (n : Nat) :
    (scaledColorsByLoad n)[0]? = some ⟨.fin 0, "white", 80, "none"⟩ := by
  rw [scaledColorsByLoad_explicit]
  simp

theorem scaledColorsByLoad_last (n : Nat) :
    (scaledColorsByLoad n)[11]? = some ⟨.fin 0, "red", 100, "fade_fast"⟩ := by
  rw [scaledColorsByLoad_explicit]
  simp

theorem scaledColorsByLoad_top_mem (n : Nat) :
    (⟨.fin (4.0 * ((n : ℤ) : ℚ)), "red", 100, "none"⟩ : ledColorConfig) ∈ scaledColorsByLoad n := by
  rw [scaledColorsByLoad_explicit]
  simp

theorem colorsByLoad_dropLast_sorted :
    List.Pairwise (fun a b : ledColorConfig => a.load.lt b.load = true) colorsByLoad.dropLast := by
  simp only [colorsByLoad, List.dropLast, List.pairwise_cons, List.mem_cons, List.mem_singleton,
    forall_eq_or_imp, forall_eq, Float64.lt, decide_eq_true_eq, List.not_mem_nil,
    List.Pairwise.nil, false_implies, implies_true, and_true]
  norm_num

theorem colorsByLoad_le_top : ∀ e ∈ colorsByLoad, e.load.le (.fin 4.0) = true := by
  intro e he
  simp only [colorsByLoad, List.mem_cons, List.mem_singleton, List.not_mem_nil, or_false] at he
  rcases he with h | h | h | h | h | h | h | h | h | h | h | h <;>
    (rw [h]; simp only [Float64.le, decide_eq_true_eq]; norm_num)

theorem scaledColorsByLoad_le_top (n : Nat) (hn : 1 ≤ n) :
    ∀ e ∈ scaledColorsByLoad n, e.load.le (.fin (4.0 * ((n : ℤ) : ℚ))) = true := by
  intro e he
  obtain ⟨e0, h0, rfl⟩ := mem_scaledColorsByLoad he
  have hc : (0 : ℚ) < ((n : ℤ) : ℚ) := by exact_mod_cast hn
  exact Float64.mul_fin_le hc (colorsByLoad_le_top e0 h0)

theorem getColorByLoad_eq_first_iff (n : Nat) (load : Float64) :
    getColorByLoad (scaledColorsByLoad n) load = some ⟨.fin 0, "white", 80, "none"⟩ ↔
      load.lt (.fin 0) = true := by
  have hlen := scaledColorsByLoad_length n
  have h0 : 0 < (scaledColorsByLoad n).length := by omega
  have hfirst : (scaledColorsByLoad n)[0] = ⟨.fin 0, "white", 80, "none"⟩ := by
    have := scaledColorsByLoad_first n
    rw [List.getElem?_eq_getElem h0] at this
    exact Option.some.inj this
  obtain ⟨i, hi, hget, hbefore, hat⟩ :=
    getColorByLoad_index (scaledColorsByLoad n) load (scaledColorsByLoad_ne_nil n)
  constructor
  · intro h
    rw [hget] at h
    have hentry : (scaledColorsByLoad n)[i] = (scaledColorsByLoad n)[0] := by
      rw [hfirst]
      exact Option.some.inj h
    have hidx : i = 0 := by
      have h1 := List.indexOf_getElem (scaledColorsByLoad_nodup n) i hi
      have h2 := List.indexOf_getElem (scaledColorsByLoad_nodup n) 0 h0
      rw [hentry, h2] at h1
      exact h1.symm
    subst hidx
    rcases hat with hlt | ⟨hlast, -⟩
    · rw [hfirst] at hlt
      exact hlt
    · omega
  · intro h
    cases i with
    | zero => rw [hget, hfirst]
    | succ k =>
      have := hbefore 0 h0 (Nat.succ_pos k)
      rw [hfirst, h] at this
      cases this

theorem getColorByLoad_eq_last_iff (n : Nat) (load : Float64) :
    getColorByLoad (scaledColorsByLoad n) load = some ⟨.fin 0, "red", 100, "fade_fast"⟩ ↔
      ∀ e ∈ scaledColorsByLoad n, load.lt e.load = false := by
  have hlen := scaledColorsByLoad_length n
  have h0 : 0 < (scaledColorsByLoad n).length := by omega
  have h11 : 11 < (scaledColorsByLoad n).length := by omega
  have hfirst : (scaledColorsByLoad n)[0] = ⟨.fin 0, "white", 80, "none"⟩ := by
    have := scaledColorsByLoad_first n
    rw [List.getElem?_eq_getElem h0] at this
    exact Option.some.inj this
  have hlast : (scaledColorsByLoad n)[11] = ⟨.fin 0, "red", 100, "fade_fast"⟩ := by
    have := scaledColorsByLoad_last n
    rw [List.getElem?_eq_getElem h11] at this
    exact Option.some.inj this
  obtain ⟨i, hi, hget, hbefore, hat⟩ :=
    getColorByLoad_index (scaledColorsByLoad n) load (scaledColorsByLoad_ne_nil n)
  constructor
  · intro h
    rw [hget] at h
    have hentry : (scaledColorsByLoad n)[i] = ⟨.fin 0, "red", 100, "fade_fast"⟩ :=
      Option.some.inj h
    rcases hat with hlt | ⟨-, hall⟩
    · exfalso
      rw [hentry] at hlt
      cases i with
      | zero =>
        rw [hfirst] at hentry
        revert hentry
        decide
      | succ k =>
        have := hbefore 0 h0 (Nat.succ_pos k)
        rw [hfirst, hlt] at this
        cases this
    · exact hall
  · intro hall
    rcases hat with hlt | ⟨hidx, -⟩
    · rw [hall _ (List.getElem_mem hi)] at hlt
      cases hlt
    · have hi11 : i = 11 := by omega
      subst hi11
      rw [hget, hlast]

theorem scaledColorsByLoad_all_not_lt_iff (n : Nat) (hn : 1 ≤ n) (load : Float64) :
    (∀ e ∈ scaledColorsByLoad n, load.lt e.load = false) ↔
      load.lt (.fin (4.0 * ((n : ℤ) : ℚ))) = false := by
  constructor
  · intro hall
    exact hall _ (scaledColorsByLoad_top_mem n)
  · intro htop e he
    cases hlt : load.lt e.load with
    | false => rfl
    | true =>
      have := Float64.lt_le_trans hlt (scaledColorsByLoad_le_top n hn e he)
      rw [htop] at this
      cases this

/-! ## Table positions: helper lemmas -/

theorem getColorByLoad_singleton (e : ledColorConfig) (load : Float64) :
    getColorByLoad [e] load = some e := by
  by_cases h : load.lt e.load = true <;> simp [getColorByLoad, getColorByLoad.scan, h]

theorem getColorByLoad_cons_cons (e e2 : ledColorConfig) (rest : List ledColorConfig)
    (load : Float64) :
    getColorByLoad (e :: e2 :: rest) load =
      if load.lt e.load then some e else getColorByLoad (e2 :: rest) load := by
  by_cases h : load.lt e.load = true
  · simp [getColorByLoad, getColorByLoad.scan, h]
  · simp only [getColorByLoad, getColorByLoad.scan, h]
    cases getColorByLoad.scan load (e2 :: rest) <;> simp

theorem getColorIndexByLoad_singleton (e : ledColorConfig) (load : Float64) :
    getColorIndexByLoad [e] load = some 0 := by
  by_cases h : load.lt e.load = true <;>
    simp [getColorIndexByLoad, getColorByLoad.scanIndex, h]

theorem getColorIndexByLoad_cons_cons (e e2 : ledColorConfig) (rest : List ledColorConfig)
    (load : Float64) :
    getColorIndexByLoad (e :: e2 :: rest) load =
      if load.lt e.load then some 0
      else (getColorIndexByLoad (e2 :: rest) load).map (· + 1) := by
  by_cases h : load.lt e.load = true
  · simp [getColorIndexByLoad, getColorByLoad.scanIndex, h]
  · have hstep : getColorByLoad.scanIndex load (e :: e2 :: rest) =
        (getColorByLoad.scanIndex load (e2 :: rest)).map (· + 1) := by
      rw [getColorByLoad.scanIndex]
      simp [h]
    unfold getColorIndexByLoad
    rw [hstep]
    cases getColorByLoad.scanIndex load (e2 :: rest) <;> simp [h]

/-- The entry `getColorByLoad` returns is the entry at the position `getColorIndexByLoad`
returns. -/
theorem getColorByLoad_eq_getElem?_index (load : Float64) :
    ∀ table : List ledColorConfig,
      getColorByLoad table load = (getColorIndexByLoad table load).bind (fun k => table[k]?)
  | [] => by simp [getColorByLoad, getColorIndexByLoad, getColorByLoad.scan,
      getColorByLoad.scanIndex]
  | [e] => by simp [getColorByLoad_singleton, getColorIndexByLoad_singleton]
  | e :: e2 :: rest => by
    rw [getColorByLoad_cons_cons, getColorIndexByLoad_cons_cons,
      getColorByLoad_eq_getElem?_index load (e2 :: rest)]
    by_cases h : load.lt e.load = true
    · simp [h]
    · simp only [h]
      cases getColorIndexByLoad (e2 :: rest) load <;> simp

theorem getColorIndexByLoad_isSome (load : Float64) :
    ∀ table : List ledColorConfig, table ≠ [] →
      ∃ k, getColorIndexByLoad table load = some k ∧ k < table.length
  | [], h => absurd rfl h
  | [e], _ => ⟨0, getColorIndexByLoad_singleton e load, by simp⟩
  | e :: e2 :: rest, _ => by
    obtain ⟨k, hk, hlt⟩ := getColorIndexByLoad_isSome load (e2 :: rest) (by simp)
    rw [getColorIndexByLoad_cons_cons]
    by_cases h : load.lt e.load = true
    · exact ⟨0, by simp [h], by simp⟩
    · exact ⟨k + 1, by simp [h, hk], by simpa using hlt⟩

theorem replaceLastLoad_length (threshold : Float64) :
    ∀ table : List ledColorConfig, (replaceLastLoad threshold table).length = table.length
  | [] => rfl
  | [_] => rfl
  | e :: e2 :: rest => by
    simp only [replaceLastLoad, List.length_cons]
    rw [replaceLastLoad_length threshold (e2 :: rest)]
    rfl

theorem replaceLastLoad_cons_ne_nil (threshold : Float64) (e2 : ledColorConfig)
    (rest : List ledColorConfig) :
    ∃ e3 rest3, replaceLastLoad threshold (e2 :: rest) = e3 :: rest3 := by
  cases rest with
  | nil => exact ⟨_, _, rfl⟩
  | cons e3 rest => exact ⟨_, _, rfl⟩

theorem getColorIndexByLoad_replaceLastLoad (threshold load : Float64) :
    ∀ table : List ledColorConfig,
      getColorIndexByLoad (replaceLastLoad threshold table) load =
        getColorIndexByLoad table load
  | [] => rfl
  | [e] => by
    simp only [replaceLastLoad]
    rw [getColorIndexByLoad_singleton, getColorIndexByLoad_singleton]
  | e :: e2 :: rest => by
    have ih := getColorIndexByLoad_replaceLastLoad threshold load (e2 :: rest)
    obtain ⟨e3, rest3, h3⟩ := replaceLastLoad_cons_ne_nil threshold e2 rest
    simp only [replaceLastLoad]
    rw [h3] at ih ⊢
    rw [getColorIndexByLoad_cons_cons, getColorIndexByLoad_cons_cons, ih]

/-! ## Load per core: helper lemmas -/

theorem Float64.lt_mul_fin (x c : ℚ) (hc : 0 < c) (a : Float64) :
    (Float64.fin x).lt (a.mul (.fin c)) = (Float64.fin (x / c)).lt a := by
  cases a with
  | nan => rfl
  | negInf => simp [Float64.lt, Float64.mul, Float64.infMul, hc.ne', hc]
  | posInf => simp [Float64.lt, Float64.mul, Float64.infMul, hc.ne', hc]
  | fin q =>
    simp only [Float64.lt, Float64.mul]
    exact decide_eq_decide.mpr (div_lt_iff₀ hc).symm

theorem scan_map_scaled (x c : ℚ) (hc : 0 < c) :
    ∀ table : List ledColorConfig,
      getColorByLoad.scan (.fin x) (table.map (ledColorConfig.scaled (.fin c))) =
        (getColorByLoad.scan (.fin (x / c)) table).map (ledColorConfig.scaled (.fin c))
  | [] => rfl
  | e :: rest => by
    have ih := scan_map_scaled x c hc rest
    have hlt : (Float64.fin x).lt (e.scaled (.fin c)).load = (Float64.fin (x / c)).lt e.load :=
      Float64.lt_mul_fin x c hc e.load
    simp only [List.map_cons, getColorByLoad.scan, hlt, ih]
    by_cases h : (Float64.fin (x / c)).lt e.load = true <;> simp [h]

theorem scanIndex_map_scaled (x c : ℚ) (hc : 0 < c) :
    ∀ table : List ledColorConfig,
      getColorByLoad.scanIndex (.fin x) (table.map (ledColorConfig.scaled (.fin c))) =
        getColorByLoad.scanIndex (.fin (x / c)) table
  | [] => rfl
  | e :: rest => by
    have ih := scanIndex_map_scaled x c hc rest
    have hlt : (Float64.fin x).lt (e.scaled (.fin c)).load = (Float64.fin (x / c)).lt e.load :=
      Float64.lt_mul_fin x c hc e.load
    simp only [List.map_cons, getColorByLoad.scanIndex, hlt, ih]

theorem getColorByLoad_map_scaled (x c : ℚ) (hc : 0 < c) (table : List ledColorConfig) :
    getColorByLoad (table.map (ledColorConfig.scaled (.fin c))) (.fin x) =
      (getColorByLoad table (.fin (x / c))).map (ledColorConfig.scaled (.fin c)) := by
  unfold getColorByLoad
  rw [scan_map_scaled x c hc]
  cases getColorByLoad.scan (.fin (x / c)) table with
  | some e => rfl
  | none =>
    by_cases hlen : table.length = 0
    · simp [hlen]
    · simp [hlen, List.getElem?_map]

theorem getColorIndexByLoad_map_scaled (x c : ℚ) (hc : 0 < c) (table : List ledColorConfig) :
    getColorIndexByLoad (table.map (ledColorConfig.scaled (.fin c))) (.fin x) =
      getColorIndexByLoad table (.fin (x / c)) := by
  unfold getColorIndexByLoad
  rw [scanIndex_map_scaled x c hc]
  simp

/-! ## Written commands: helper lemmas -/

theorem writtenCommands_append (a b : List Event) :
    writtenCommands (a ++ b) = writtenCommands a ++ writtenCommands b := by
  induction a with
  | nil => rfl
  | cons e rest ih => cases e <;> simp [writtenCommands, ih]

theorem monitorTick_writtenCommands {table : List ledColorConfig}
    {prevColor color : ledColorConfig} {tick : Tick} {events : List Event}
    (h : monitorTick table prevColor tick = some (color, events)) :
    writtenCommands events = (writtenStates events).map ringCommand := by
  obtain ⟨⟨load, err⟩, writeErr⟩ := tick
  cases err with
  | some err =>
    simp only [monitorTick, Option.some.injEq, Prod.mk.injEq] at h
    rw [← h.2]
    rfl
  | none =>
    simp only [monitorTick] at h
    cases hres : getColorByLoad table load with
    | none => simp [hres] at h
    | some c =>
      simp only [hres] at h
      by_cases hchange : c.ne prevColor = true
      · simp only [hchange, if_true, Option.some.injEq, Prod.mk.injEq] at h
        rw [← h.2]
        simp [writtenCommands, writtenStates, writtenCommands_setRingColor,
          writtenStates_setRingColor]
      · simp only [hchange, Bool.false_eq_true, if_false, Option.some.injEq,
          Prod.mk.injEq] at h
        rw [← h.2]
        rfl

theorem loop_writtenCommands (table : List ledColorConfig) :
    ∀ (ticks : List Tick) (prevColor last : ledColorConfig) (events : List Event),
      loadAverageMonitor.loop table prevColor ticks = some (last, events) →
      writtenCommands events = (writtenStates events).map ringCommand
  | [], prevColor, last, events, h => by
    simp only [loadAverageMonitor.loop, Option.some.injEq, Prod.mk.injEq] at h
    rw [← h.2]
    rfl
  | tick :: ticks, prevColor, last, events, h => by
    simp only [loadAverageMonitor.loop] at h
    cases htick : monitorTick table prevColor tick with
    | none => simp [htick] at h
    | some r =>
      obtain ⟨color, ev⟩ := r
      simp only [htick] at h
      cases hrest : loadAverageMonitor.loop table color ticks with
      | none => simp [hrest] at h
      | some r2 =>
        obtain ⟨last2, more⟩ := r2
        simp only [hrest, Option.some.injEq, Prod.mk.injEq] at h
        rw [← h.2, writtenCommands_append, writtenStates_append, List.map_append,
          monitorTick_writtenCommands htick,
          loop_writtenCommands table ticks color last2 more hrest]

theorem dedupAdjacent_head {α : Type} [DecidableEq α] (a : α) :
    ∀ l : List α, ∃ tl, dedupAdjacent (a :: l) = a :: tl
  | [] => ⟨[], rfl⟩
  | b :: l => by
    by_cases hab : a = b
    · subst hab
      rw [dedupAdjacent_cons_cons_eq]
      exact dedupAdjacent_head a l
    · exact ⟨_, dedupAdjacent_cons_cons_ne l hab⟩

theorem dedupAdjacent_adjacentDistinct {α : Type} [DecidableEq α] :
    ∀ l : List α, AdjacentDistinct (dedupAdjacent l)
  | [] => trivial
  | [_] => trivial
  | a :: b :: l => by
    have ih := dedupAdjacent_adjacentDistinct (b :: l)
    by_cases hab : a = b
    · subst hab
      rw [dedupAdjacent_cons_cons_eq]
      exact ih
    · rw [dedupAdjacent_cons_cons_ne l hab]
      obtain ⟨tl, htl⟩ := dedupAdjacent_head b l
      rw [htl] at ih ⊢
      exact ⟨hab, ih⟩

theorem dedupAdjacent_mem {α : Type} [DecidableEq α] {x : α} :
    ∀ l : List α, x ∈ dedupAdjacent l → x ∈ l
  | [], h => h
  | [_], h => h
  | a :: b :: l, h => by
    by_cases hab : a = b
    · subst hab
      rw [dedupAdjacent_cons_cons_eq] at h
      exact List.mem_cons_of_mem _ (dedupAdjacent_mem (a :: l) h)
    · rw [dedupAdjacent_cons_cons_ne l hab] at h
      rcases List.mem_cons.mp h with rfl | h
      · exact List.mem_cons_self _ _
      · exact List.mem_cons_of_mem _ (dedupAdjacent_mem (b :: l) h)

theorem AdjacentDistinct.map_of_injOn {α β : Type} (f : α → β) (p : α → Prop)
    (hinj : ∀ a b, p a → p b → f a = f b → a = b) :
    ∀ l : List α, (∀ x ∈ l, p x) → AdjacentDistinct l → AdjacentDistinct (l.map f)
  | [], _, _ => trivial
  | [_], _, _ => trivial
  | a :: b :: l, hp, h => by
    refine ⟨fun hab => h.1 (hinj a b (hp a (by simp)) (hp b (by simp)) hab), ?_⟩
    exact AdjacentDistinct.map_of_injOn f p hinj (b :: l)
      (fun x hx => hp x (List.mem_cons_of_mem _ hx)) h.2

theorem colorsByLoad_commands_nodup : (colorsByLoad.map ringCommand).Nodup := by
  decide

theorem ringCommand_scaled (cores : Float64) (e : ledColorConfig) :
    ringCommand (e.scaled cores) = ringCommand e := rfl

theorem ringCommand_injOn_scaled (n : Nat) :
    ∀ a b, a ∈ scaledColorsByLoad n → b ∈ scaledColorsByLoad n →
      ringCommand a = ringCommand b → a = b := by
  intro a b ha hb hab
  obtain ⟨a0, ha0, rfl⟩ := mem_scaledColorsByLoad ha
  obtain ⟨b0, hb0, rfl⟩ := mem_scaledColorsByLoad hb
  rw [ringCommand_scaled, ringCommand_scaled] at hab
  rw [List.inj_on_of_nodup_map colorsByLoad_commands_nodup ha0 hb0 hab]

/-! ## float64 rounding: the table on 3 and on 29 cores -/

/-- On 3 cores the product of the float64 `0.10` by 3 is rounded: entry 3 of the table holds
`0.30000000000000004`, which is `5404319552844596 / 2^54`, not `3/10`. -/
theorem scaledColorsByLoad64_three_cores :
    (scaledColorsByLoad64 3)[3]? = some ⟨.fin (5404319552844596 / 2 ^ 54), "blue", 40, "none"⟩ ∧
    getColorByLoad (scaledColorsByLoad64 3) (Float64.round 0.30) =
      some ⟨.fin (5404319552844596 / 2 ^ 54), "blue", 40, "none"⟩ := by
  decide!

theorem scaledColorsByLoad64_index_29 :
    getColorIndexByLoad (scaledColorsByLoad64 29) (Float64.round 0.58) = some 2 := by
  decide!

theorem colorsByLoad64_index_29 :
    getColorIndexByLoad colorsByLoad64
      ((Float64.round 0.58).div64 (Float64.ofInt64 (29 : ℕ))) = some 1 := by
  decide!

theorem colorsByLoad64_products_exact_four :
    ∀ e ∈ colorsByLoad64, e.load.mul64 (Float64.ofInt64 (4 : ℕ)) =
      e.load.mul (Float64.ofInt (4 : ℕ)) := by
  decide!

theorem quotient_exact_one_by_four :
    (Float64.fin 1).div64 (Float64.ofInt64 (4 : ℕ)) = .fin (1 / ((4 : ℕ) : ℚ)) := by
  decide!

/-! ## Claims -/

/-- C1: on a non-empty table `getColorByLoad` always returns an entry of the table, for every
load (negative, infinite and NaN included): the entry at the first position whose threshold
satisfies `load < threshold`, or the entry at the last position when no threshold does. -/
theorem getColorByLoad_first_match_or_last (table : List ledColorConfig) (load : Float64)
    (hne : table ≠ []) :
    ∃ i, ∃ hi : i < table.length,
      getColorByLoad table load = some table[i] ∧
      (∀ j, ∀ hj : j < table.length, j < i → load.lt (table[j]).load = false) ∧
      (load.lt (table[i]).load = true ∨
        (i = table.length - 1 ∧ ∀ e ∈ table, load.lt e.load = false)) :=
  getColorByLoad_index table load hne

/-- C1, at a concrete input: the table scaled for 4 cores and the load 0.3. -/
theorem getColorByLoad_first_match_or_last_witness :
    scaledColorsByLoad 4 ≠ [] ∧
    ∃ i, ∃ hi : i < (scaledColorsByLoad 4).length,
      getColorByLoad (scaledColorsByLoad 4) (.fin 0.3) = some (scaledColorsByLoad 4)[i] ∧
      (∀ j, ∀ hj : j < (scaledColorsByLoad 4).length, j < i →
        (Float64.fin 0.3).lt ((scaledColorsByLoad 4)[j]).load = false) ∧
      ((Float64.fin 0.3).lt ((scaledColorsByLoad 4)[i]).load = true ∨
        (i = (scaledColorsByLoad 4).length - 1 ∧
          ∀ e ∈ scaledColorsByLoad 4, (Float64.fin 0.3).lt e.load = false)) :=
  ⟨scaledColorsByLoad_ne_nil 4,
   getColorByLoad_first_match_or_last _ _ (scaledColorsByLoad_ne_nil 4)⟩

/-- C3: for every core count the scaling pass of `main`, in float64 arithmetic, yields a table
of the same length and order as the static table, in which every threshold is the original
threshold (the float64 of the literal) multiplied by the core count (the float64 product) and
the colour, brightness and blink pattern of each entry are unchanged; for 4 cores the thresholds
are the float64 values 0, 0.08, 0.2, 0.4, 0.6, 1.0, 2.0, 3.0, 4.0, 8.0, 16.0, 0. -/
theorem scaledColorsByLoad64_thresholds (numCPU : Nat) :
    (scaledColorsByLoad64 numCPU).length = colorsByLoad.length ∧
    (∀ i, ∀ hi : i < colorsByLoad.length,
      (scaledColorsByLoad64 numCPU)[i]? =
        some ⟨((colorsByLoad[i]).load.nearest).mul64 (Float64.ofInt64 numCPU),
          (colorsByLoad[i]).color, (colorsByLoad[i]).brightness, (colorsByLoad[i]).blink⟩) ∧
    (scaledColorsByLoad64 4).map ledColorConfig.load =
      [Float64.round 0, Float64.round 0.08, Float64.round 0.2, Float64.round 0.4,
        Float64.round 0.6, Float64.round 1.0, Float64.round 2.0, Float64.round 3.0,
        Float64.round 4.0, Float64.round 8.0, Float64.round 16.0, Float64.round 0] := by
  refine ⟨?_, ?_, by decide!⟩
  · simp [scaledColorsByLoad64_eq_map, colorsByLoad64]
  · intro i hi
    simp [scaledColorsByLoad64_eq_map, colorsByLoad64, List.getElem?_map,
      List.getElem?_eq_getElem hi, ledColorConfig.scaledWith]

/-- C4 (as stated, refuted): with the table scaled for 4 cores, the loads 0.0, 0.3, 0.9 and 3.0
do not resolve to white/80/none, blue/40/none, cyan/50/none, pink/60/none: the load 0.0 is not
below the first threshold 0 and resolves to the second entry. -/
theorem getColorByLoad_scenario_counterexample :
    ¬ ([(0.0 : ℚ), 0.3, 0.9, 3.0].map
        (fun l => (getColorByLoad (scaledColorsByLoad 4) (.fin l)).map ledColorConfig.visual) =
      [some ("white", 80, "none"), some ("blue", 40, "none"), some ("cyan", 50, "none"),
        some ("pink", 60, "none")]) := by
  intro h
  have h0 := (List.cons.inj h).1
  simp only [getColorByLoad_four_load_zero, Option.map, ledColorConfig.visual] at h0
  revert h0
  decide

/-- C4 (amended): with the table scaled for 4 cores, the loads 0.0, 0.3, 0.9 and 3.0 resolve,
in order, to blue/10/none, blue/40/none, cyan/50/none and pink/60/none. -/
theorem getColorByLoad_scenario :
    [(0.0 : ℚ), 0.3, 0.9, 3.0].map
        (fun l => (getColorByLoad (scaledColorsByLoad 4) (.fin l)).map ledColorConfig.visual) =
      [some ("blue", 10, "none"), some ("blue", 40, "none"), some ("cyan", 50, "none"),
        some ("pink", 60, "none")] := by
  simp only [List.map, getColorByLoad_four_load_zero, getColorByLoad_four_load_03,
    getColorByLoad_four_load_09, getColorByLoad_four_load_3, Option.map, ledColorConfig.visual]

/-- C5: for every core count `numCPU ≥ 1` and all loads `l1 <= l2`, `getColorByLoad` returns
for both loads an entry of the scaled table, and the table position of the entry returned for
`l1` is less than or equal to the table position of the entry returned for `l2`. -/
theorem getColorByLoad_monotone (numCPU : Nat) (_hcpu : 1 ≤ numCPU) (l1 l2 : Float64)
    (hle : l1.le l2 = true) :
    ∃ e1 e2, getColorByLoad (scaledColorsByLoad numCPU) l1 = some e1 ∧
      getColorByLoad (scaledColorsByLoad numCPU) l2 = some e2 ∧
      e1 ∈ scaledColorsByLoad numCPU ∧ e2 ∈ scaledColorsByLoad numCPU ∧
      (scaledColorsByLoad numCPU).indexOf e1 ≤ (scaledColorsByLoad numCPU).indexOf e2 := by
  obtain ⟨i1, i2, h1, h2, hget1, hget2, hle12⟩ :=
    getColorByLoad_index_mono (scaledColorsByLoad numCPU) (scaledColorsByLoad_ne_nil numCPU)
      l1 l2 hle
  refine ⟨_, _, hget1, hget2, List.getElem_mem h1, List.getElem_mem h2, ?_⟩
  rw [List.indexOf_getElem (scaledColorsByLoad_nodup numCPU) i1 h1,
    List.indexOf_getElem (scaledColorsByLoad_nodup numCPU) i2 h2]
  exact hle12

/-- C5, at a concrete input: 4 cores and the loads 0.3 and 3.0. -/
theorem getColorByLoad_monotone_witness :
    1 ≤ 4 ∧ (Float64.fin 0.3).le (Float64.fin 3.0) = true ∧
    ∃ e1 e2, getColorByLoad (scaledColorsByLoad 4) (.fin 0.3) = some e1 ∧
      getColorByLoad (scaledColorsByLoad 4) (.fin 3.0) = some e2 ∧
      e1 ∈ scaledColorsByLoad 4 ∧ e2 ∈ scaledColorsByLoad 4 ∧
      (scaledColorsByLoad 4).indexOf e1 ≤ (scaledColorsByLoad 4).indexOf e2 :=
  ⟨by decide, by simp [Float64.le]; norm_num,
    getColorByLoad_monotone 4 (by decide) (.fin 0.3) (.fin 3.0)
      (by simp [Float64.le]; norm_num)⟩

/-- C2: for every core count and every finite sequence of ticks, `loadAverageMonitor` started
from the zero-valued previous state runs without panic and the sequence of states it passes to
`setRingColor` is the sequence of resolved states of the successful ticks with adjacent
duplicates removed; in particular, when the ticks are N >= 1 successful ticks that all resolve to
one state, exactly that one state is written. -/
theorem loadAverageMonitor_writes_dedup (numCPU : Nat) (ticks : List Tick) :
    ∃ last events, loadAverageMonitor (scaledColorsByLoad numCPU) ticks = some (last, events) ∧
      writtenStates events = dedupAdjacent (resolvedStates (scaledColorsByLoad numCPU) ticks) ∧
      (∀ s, ticks ≠ [] →
        (∀ t ∈ ticks, t.sample.2 = none ∧
          getColorByLoad (scaledColorsByLoad numCPU) t.sample.1 = some s) →
        writtenStates events = [s]) := by
  obtain ⟨last, events, hrun, hw⟩ :=
    loadAverageMonitor_writtenStates (scaledColorsByLoad numCPU) (scaledColorsByLoad_ne_nil numCPU)
      (scaledColorsByLoad_not_nan numCPU)
      (fun h => scaledColorsByLoad_ne_zero numCPU _ h rfl) ticks
  refine ⟨last, events, hrun, hw, ?_⟩
  intro s hne hall
  have hres : ∀ t ∈ ticks, resolvedState (scaledColorsByLoad numCPU) t = some s := by
    intro t ht
    obtain ⟨⟨load, err⟩, writeErr⟩ := t
    obtain ⟨herr, hget⟩ := hall _ ht
    simp only at herr hget
    subst herr
    simpa [resolvedState] using hget
  rw [hw, resolvedStates_same _ s ticks hres]
  obtain ⟨n, hn⟩ := Nat.exists_eq_succ_of_ne_zero (fun h => hne (List.length_eq_zero.mp h))
  rw [hn]
  exact dedupAdjacent_replicate s n

/-- C2, at a concrete input: on 4 cores, three successful ticks of load 0.3 write the state
blue/40/none once. -/
theorem loadAverageMonitor_writes_dedup_witness :
    ∃ last events,
      loadAverageMonitor (scaledColorsByLoad 4)
        [⟨(.fin 0.3, none), none⟩, ⟨(.fin 0.3, none), none⟩, ⟨(.fin 0.3, none), none⟩] =
          some (last, events) ∧
      writtenStates events = [⟨.fin 0.4, "blue", 40, "none"⟩] := by
  obtain ⟨last, events, hrun, -, hsame⟩ :=
    loadAverageMonitor_writes_dedup 4
      [⟨(.fin 0.3, none), none⟩, ⟨(.fin 0.3, none), none⟩, ⟨(.fin 0.3, none), none⟩]
  refine ⟨last, events, hrun, hsame _ (by simp) ?_⟩
  intro t ht
  simp only [List.mem_cons, List.mem_singleton, List.not_mem_nil, or_false, or_self] at ht
  subst ht
  exact ⟨rfl, getColorByLoad_four_load_03⟩

/-- C6: for every state and every outcome of the write, the one command `setRingColor` hands to
`ioutil.WriteFile` is `ring,` followed by the brightness in decimal, a comma, the blink pattern,
a comma and the colour name, and it is written to `ledDriverFile`; a state that differs only in
its load threshold gives the same command. -/
theorem setRingColor_command (color : ledColorConfig) (writeErr : Option String) :
    writtenCommands (setRingColor color writeErr) =
      ["ring," ++ toString color.brightness ++ "," ++ color.blink ++ "," ++ color.color] ∧
    (∃ more, setRingColor color writeErr =
      .writeFile color "/proc/acpi/nuc_led" (ringCommand color) writeErr :: more) ∧
    (∀ load : Float64,
      writtenCommands (setRingColor ⟨load, color.color, color.brightness, color.blink⟩ writeErr) =
        writtenCommands (setRingColor color writeErr)) ∧
    ringCommand ⟨.fin 0, "white", 80, "none"⟩ = "ring,80,none,white" := by
  refine ⟨?_, ?_, ?_, by decide⟩
  · rw [writtenCommands_setRingColor, ringCommand_eq]
  · cases writeErr <;> simp [setRingColor, ledDriverFile]
  · intro load
    rw [writtenCommands_setRingColor, writtenCommands_setRingColor, ringCommand_eq, ringCommand_eq]

/-- C7: a tick of `loadAverageMonitor` whose load sample fails performs no device write and leaves
the previous state unchanged, for every table, previous state, error and returned load value. -/
theorem monitorTick_sample_error (table : List ledColorConfig) (prevColor : ledColorConfig)
    (load : Float64) (err : String) (writeErr : Option String) :
    ∃ events, monitorTick table prevColor ⟨(load, some err), writeErr⟩ = some (prevColor, events) ∧
      writtenStates events = [] ∧ writtenCommands events = [] :=
  ⟨[.logLoadError err], rfl, rfl, rfl⟩

/-- C8: for every core count, when a tick resolves to a state that differs from the previous
state, the tick calls `setRingColor` with it and the previous state after the tick is the
resolved state whatever `ioutil.WriteFile` returned; a following tick that resolves to the same
state performs no write and leaves it unchanged, so a failed write is not retried. -/
theorem monitorTick_no_retry (numCPU : Nat) (prevColor color : ledColorConfig)
    (load : Float64) (writeErr : Option String)
    (hcolor : getColorByLoad (scaledColorsByLoad numCPU) load = some color)
    (hchange : color.ne prevColor = true) :
    ∃ events,
      monitorTick (scaledColorsByLoad numCPU) prevColor ⟨(load, none), writeErr⟩ =
        some (color, events) ∧
      writtenStates events = [color] ∧
      ∀ (load2 : Float64) (writeErr2 : Option String),
        getColorByLoad (scaledColorsByLoad numCPU) load2 = some color →
        monitorTick (scaledColorsByLoad numCPU) color ⟨(load2, none), writeErr2⟩ =
          some (color, []) := by
  refine ⟨.logColor load color :: setRingColor color writeErr, ?_, ?_, ?_⟩
  · simp [monitorTick, hcolor, hchange]
  · simp [writtenStates, writtenStates_setRingColor]
  · intro load2 writeErr2 hcolor2
    have hsame : color.ne color = false := by
      have := ledColorConfig.ne_iff color color
        (scaledColorsByLoad_not_nan numCPU color (getColorByLoad_mem hcolor))
      cases hne : color.ne color with
      | false => rfl
      | true => exact absurd rfl (this.mp hne)
    simp [monitorTick, hcolor2, hsame]

/-- C8, at a concrete input: 4 cores, zero-valued previous state, load 0.3 and a failing write. -/
theorem monitorTick_no_retry_witness :
    ∃ events,
      monitorTick (scaledColorsByLoad 4) ledColorConfig.zero ⟨(.fin 0.3, none), some "EIO"⟩ =
        some (⟨.fin 0.4, "blue", 40, "none"⟩, events) ∧
      writtenStates events = [⟨.fin 0.4, "blue", 40, "none"⟩] ∧
      ∀ (load2 : Float64) (writeErr2 : Option String),
        getColorByLoad (scaledColorsByLoad 4) load2 = some ⟨.fin 0.4, "blue", 40, "none"⟩ →
        monitorTick (scaledColorsByLoad 4) ⟨.fin 0.4, "blue", 40, "none"⟩
          ⟨(load2, none), writeErr2⟩ = some (⟨.fin 0.4, "blue", 40, "none"⟩, []) :=
  monitorTick_no_retry 4 ledColorConfig.zero ⟨.fin 0.4, "blue", 40, "none"⟩ (.fin 0.3)
    (some "EIO") getColorByLoad_four_load_03 (by simp [ledColorConfig.ne, ledColorConfig.zero])

/-- C9: for every core count, the zero-valued initial previous state differs (under Go's `!=`)
from every entry of the scaled table, and so for every load the first tick with a successful
sample, after any number of ticks whose sample failed, calls `setRingColor` once, with the
resolved state. -/
theorem loadAverageMonitor_first_write (numCPU : Nat) (failed : List Tick) (load : Float64)
    (writeErr : Option String) (hfailed : ∀ t ∈ failed, t.sample.2 ≠ none) :
    (∀ e ∈ scaledColorsByLoad numCPU, e.ne ledColorConfig.zero = true) ∧
    ∃ color events,
      getColorByLoad (scaledColorsByLoad numCPU) load = some color ∧
      loadAverageMonitor (scaledColorsByLoad numCPU) (failed ++ [⟨(load, none), writeErr⟩]) =
        some (color, events) ∧
      writtenStates events = [color] := by
  have hdiff : ∀ e ∈ scaledColorsByLoad numCPU, e.ne ledColorConfig.zero = true := fun e he =>
    (ledColorConfig.ne_iff e _ (scaledColorsByLoad_not_nan numCPU e he)).mpr
      (scaledColorsByLoad_ne_zero numCPU e he)
  refine ⟨hdiff, ?_⟩
  obtain ⟨color, hcolor, hmem⟩ := getColorByLoad_isSome (scaledColorsByLoad_ne_nil numCPU) load
  refine ⟨color, ?_⟩
  unfold loadAverageMonitor
  induction failed with
  | nil =>
    refine ⟨.logColor load color :: setRingColor color writeErr ++ [], hcolor, ?_, ?_⟩
    · simp [loadAverageMonitor.loop, monitorTick, hcolor, hdiff color hmem]
    · simp [writtenStates, writtenStates_setRingColor]
  | cons t failed ih =>
    obtain ⟨events, -, hrun, hw⟩ := ih (fun u hu => hfailed u (List.mem_cons_of_mem _ hu))
    obtain ⟨⟨l, err⟩, w⟩ := t
    cases err with
    | none => exact absurd rfl (hfailed _ (List.mem_cons_self _ _))
    | some err =>
      refine ⟨.logLoadError err :: events, hcolor, ?_, ?_⟩
      · simp [loadAverageMonitor.loop, monitorTick, hrun]
      · simpa [writtenStates] using hw

/-- C9, at a concrete input: 4 cores, one failed sample, then a sample of load 0. -/
theorem loadAverageMonitor_first_write_witness :
    (∀ t ∈ [(⟨(.fin (-1), some "no data"), none⟩ : Tick)], t.sample.2 ≠ none) ∧
    (∀ e ∈ scaledColorsByLoad 4, e.ne ledColorConfig.zero = true) ∧
    ∃ color events,
      getColorByLoad (scaledColorsByLoad 4) (.fin 0) = some color ∧
      loadAverageMonitor (scaledColorsByLoad 4)
        ([⟨(.fin (-1), some "no data"), none⟩] ++ [⟨(.fin 0, none), none⟩]) =
          some (color, events) ∧
      writtenStates events = [color] :=
  ⟨by simp, loadAverageMonitor_first_write 4 [⟨(.fin (-1), some "no data"), none⟩] (.fin 0) none
    (by simp)⟩

/-- C10 (as stated, refuted): it is not so that `getLoadAverage` returns the value of the first
whitespace-separated token whenever that token is a valid number.  The content `0.52` followed by
a newline has the valid first token `0.52`, but the code splits on the space character only,
hands `strconv.ParseFloat` the text with its newline, and returns an error. -/
theorem getLoadAverage_whitespace_counterexample :
    ¬ (∀ (content : String) (v : Float64),
        parseFloat (firstWhitespaceToken content) = .ok v →
        getLoadAverage parseFloat (.ok content) = (v, none)) := by
  intro h
  have htoken : firstWhitespaceToken "0.52\n" = "0.52" := by decide
  have hfield : firstSpaceField "0.52\n" = "0.52\n" := by decide
  have hrun := h "0.52\n" (.fin 0.52) (by rw [htoken]; exact parseFloat_052)
  rw [getLoadAverage_ok_eq, hfield, parseFloat_052_newline] at hrun
  simp at hrun

/-- C10 (amended): for every content of the load data source and every behaviour of
`strconv.ParseFloat`, `getLoadAverage` parses the text that precedes the first space character
(the whole content when it has no space) and returns the parsed number without error whenever
that text is a valid number; the content `0.52 0.40 0.30 1/123 4567` with its final newline
yields 0.52. -/
theorem getLoadAverage_first_space_field :
    (∀ (parse : String → Except String Float64) (content : String) (v : Float64),
      parse (firstSpaceField content) = .ok v →
      getLoadAverage parse (.ok content) = (v, none)) ∧
    getLoadAverage parseFloat (.ok "0.52 0.40 0.30 1/123 4567\n") = (.fin 0.52, none) := by
  have hgen : ∀ (parse : String → Except String Float64) (content : String) (v : Float64),
      parse (firstSpaceField content) = .ok v →
      getLoadAverage parse (.ok content) = (v, none) := by
    intro parse content v hv
    rw [getLoadAverage_ok_eq, hv]
  refine ⟨hgen, hgen _ _ _ ?_⟩
  have hfield : firstSpaceField "0.52 0.40 0.30 1/123 4567\n" = "0.52" := by decide
  rw [hfield]
  exact parseFloat_052

/-- C10 (amended), at a concrete input: the content `0.52` followed by a space and `0.40`. -/
theorem getLoadAverage_first_space_field_witness :
    parseFloat (firstSpaceField "0.52 0.40") = .ok (.fin 0.52) ∧
    getLoadAverage parseFloat (.ok "0.52 0.40") = (.fin 0.52, none) :=
  have hfield : parseFloat (firstSpaceField "0.52 0.40") = .ok (.fin 0.52) := by
    have h : firstSpaceField "0.52 0.40" = "0.52" := by decide
    rw [h]
    exact parseFloat_052
  ⟨hfield, getLoadAverage_first_space_field.1 parseFloat "0.52 0.40" (.fin 0.52) hfield⟩

/-- C11: when the load data source is read successfully but its content is empty,
`getLoadAverage` returns an error with -1 as the load value: the split gives one empty field,
which `strconv.ParseFloat` rejects (and so for every parser that rejects the empty text). -/
theorem getLoadAverage_empty_content :
    getLoadAverage parseFloat (.ok "") = (.fin (-1), some "invalid syntax") ∧
    ∀ (parse : String → Except String Float64) (err : String),
      parse "" = .error err → getLoadAverage parse (.ok "") = (.fin (-1), some err) := by
  have hfield : firstSpaceField "" = "" := by decide
  have hgen : ∀ (parse : String → Except String Float64) (err : String),
      parse "" = .error err → getLoadAverage parse (.ok "") = (.fin (-1), some err) := by
    intro parse err herr
    rw [getLoadAverage_ok_eq, hfield, herr]
  exact ⟨hgen parseFloat _ parseFloat_empty, hgen⟩

/-- C11, at a concrete input: a parser that rejects every text. -/
theorem getLoadAverage_empty_content_witness :
    getLoadAverage (fun _ => .error "invalid syntax") (.ok "") =
      (.fin (-1), some "invalid syntax") :=
  getLoadAverage_empty_content.2 (fun _ => .error "invalid syntax") "invalid syntax" rfl

/-- C12: the state the shutdown handler passes to `setRingColor` has brightness 0, blink pattern
`none` and colour `off`; the one command it writes is exactly `ring,0,none,off`, whatever the
signal and the outcome of the write, and the exit code is 0. -/
theorem handleShutdown_command (sig : String) (writeErr : Option String) :
    (∃ off : ledColorConfig, writtenStates (handleShutdown sig writeErr).events = [off] ∧
      off.brightness = 0 ∧ off.blink = "none" ∧ off.color = "off") ∧
    writtenCommands (handleShutdown sig writeErr).events = ["ring,0,none,off"] ∧
    (handleShutdown sig writeErr).exitCode = 0 := by
  refine ⟨⟨⟨.fin 0, "off", 0, "none"⟩, ?_, rfl, rfl, rfl⟩, ?_, rfl⟩
  · simp [handleShutdown, writtenStates_setRingColor]
  · simp only [handleShutdown, writtenCommands_setRingColor]
    decide

/-- C13: for every core count `numCPU ≥ 1`, the scaled table without its final entry is sorted
by ascending threshold (strictly, hence also in the sense of `<=`), its first entry is the
threshold-0 idle entry white/80/none and its last entry is the threshold-0 overload entry
red/100/fade_fast. -/
theorem scaledColorsByLoad_sorted (numCPU : Nat) (hcpu : 1 ≤ numCPU) :
    List.Pairwise (fun a b : ledColorConfig => a.load.le b.load = true)
      (scaledColorsByLoad numCPU).dropLast ∧
    List.Pairwise (fun a b : ledColorConfig => a.load.lt b.load = true)
      (scaledColorsByLoad numCPU).dropLast ∧
    (scaledColorsByLoad numCPU).head? = some ⟨.fin 0, "white", 80, "none"⟩ ∧
    (scaledColorsByLoad numCPU).getLast? = some ⟨.fin 0, "red", 100, "fade_fast"⟩ := by
  have hc : (0 : ℚ) < ((numCPU : ℤ) : ℚ) := by exact_mod_cast hcpu
  have hstrict : List.Pairwise (fun a b : ledColorConfig => a.load.lt b.load = true)
      (scaledColorsByLoad numCPU).dropLast := by
    rw [scaledColorsByLoad_eq_map, ← List.map_dropLast]
    exact List.Pairwise.map _ (fun a b hab => Float64.mul_fin_lt hc hab)
      colorsByLoad_dropLast_sorted
  refine ⟨hstrict.imp (fun h => Float64.le_of_lt h), hstrict, ?_, ?_⟩
  · rw [List.head?_eq_getElem?, scaledColorsByLoad_first]
  · rw [List.getLast?_eq_getElem?, scaledColorsByLoad_length, scaledColorsByLoad_last]

/-- C13, at a concrete input: 4 cores. -/
theorem scaledColorsByLoad_sorted_witness :
    1 ≤ 4 ∧
    List.Pairwise (fun a b : ledColorConfig => a.load.le b.load = true)
      (scaledColorsByLoad 4).dropLast ∧
    List.Pairwise (fun a b : ledColorConfig => a.load.lt b.load = true)
      (scaledColorsByLoad 4).dropLast ∧
    (scaledColorsByLoad 4).head? = some ⟨.fin 0, "white", 80, "none"⟩ ∧
    (scaledColorsByLoad 4).getLast? = some ⟨.fin 0, "red", 100, "fade_fast"⟩ :=
  ⟨by decide, scaledColorsByLoad_sorted 4 (by decide)⟩

/-- C14 (as stated, refuted): on the table scaled for 1 core the load NaN resolves to the last
entry red/100/fade_fast, since no comparison `NaN < threshold` holds, although `NaN >= 4.0 * 1`
is false. -/
theorem getColorByLoad_fallback_counterexample :
    ¬ (∀ (numCPU : Nat), 1 ≤ numCPU → ∀ load : Float64,
        (getColorByLoad (scaledColorsByLoad numCPU) load =
            some ⟨.fin 0, "red", 100, "fade_fast"⟩ ↔
          ((Float64.fin 4.0).mul (Float64.ofInt numCPU)).le load = true)) := by
  intro h
  have hnan := (h 1 (le_refl 1) .nan).mp
    ((getColorByLoad_eq_last_iff 1 .nan).mpr (fun e _ => by cases e.load <;> rfl))
  simp [Float64.mul, Float64.ofInt, Float64.le] at hnan

/-- C14 (amended): for every core count `numCPU ≥ 1` and every load, `getColorByLoad` on the
scaled table returns the last entry red/100/fade_fast if and only if no threshold of the table
exceeds the load, that is if and only if `load < 4.0 * numCPU` is false; for a load that is not
NaN this is `load >= 4.0 * numCPU`. -/
theorem getColorByLoad_fallback (numCPU : Nat) (hcpu : 1 ≤ numCPU) (load : Float64) :
    (getColorByLoad (scaledColorsByLoad numCPU) load = some ⟨.fin 0, "red", 100, "fade_fast"⟩ ↔
      ∀ e ∈ scaledColorsByLoad numCPU, load.lt e.load = false) ∧
    (getColorByLoad (scaledColorsByLoad numCPU) load = some ⟨.fin 0, "red", 100, "fade_fast"⟩ ↔
      load.lt ((Float64.fin 4.0).mul (Float64.ofInt numCPU)) = false) ∧
    (load ≠ .nan →
      (getColorByLoad (scaledColorsByLoad numCPU) load =
          some ⟨.fin 0, "red", 100, "fade_fast"⟩ ↔
        ((Float64.fin 4.0).mul (Float64.ofInt numCPU)).le load = true)) := by
  have hlast := getColorByLoad_eq_last_iff numCPU load
  have htop := scaledColorsByLoad_all_not_lt_iff numCPU hcpu load
  have hmul : (Float64.fin 4.0).mul (Float64.ofInt numCPU) =
      .fin (4.0 * ((numCPU : ℤ) : ℚ)) := rfl
  refine ⟨hlast, ?_, ?_⟩
  · rw [hmul]
    exact hlast.trans htop
  · intro hnan
    rw [hmul, ← Float64.not_lt_iff_le _ hnan]
    exact hlast.trans htop

/-- C14 (amended), at a concrete input: 4 cores and the load 16. -/
theorem getColorByLoad_fallback_witness :
    1 ≤ 4 ∧ Float64.fin 16 ≠ .nan ∧
    getColorByLoad (scaledColorsByLoad 4) (.fin 16) = some ⟨.fin 0, "red", 100, "fade_fast"⟩ :=
  ⟨by decide, by simp,
    ((getColorByLoad_fallback 4 (by decide) (.fin 16)).2.2 (by simp)).mpr
      (by simp [Float64.mul, Float64.ofInt, Float64.le]; norm_num)⟩

/-- C17: for every core count `numCPU ≥ 1` and every load, `getColorByLoad` on the scaled table
returns the first entry white/80/none if and only if `load < 0`; hence no load with `0 <= load`
resolves to the white idle entry. -/
theorem getColorByLoad_white_iff_negative (numCPU : Nat) (_hcpu : 1 ≤ numCPU) (load : Float64) :
    (getColorByLoad (scaledColorsByLoad numCPU) load = some ⟨.fin 0, "white", 80, "none"⟩ ↔
      load.lt (.fin 0) = true) ∧
    ((Float64.fin 0).le load = true →
      getColorByLoad (scaledColorsByLoad numCPU) load ≠ some ⟨.fin 0, "white", 80, "none"⟩) := by
  have hiff := getColorByLoad_eq_first_iff numCPU load
  refine ⟨hiff, ?_⟩
  intro hle hwhite
  have hlt := hiff.mp hwhite
  have := Float64.le_lt_trans hle hlt
  simp [Float64.lt] at this

/-- C17, at a concrete input: 4 cores and the load 0. -/
theorem getColorByLoad_white_iff_negative_witness :
    1 ≤ 4 ∧ (Float64.fin 0).le (.fin 0) = true ∧
    getColorByLoad (scaledColorsByLoad 4) (.fin 0) ≠ some ⟨.fin 0, "white", 80, "none"⟩ :=
  ⟨by decide, by simp [Float64.le],
    (getColorByLoad_white_iff_negative 4 (by decide) (.fin 0)).2 (by simp [Float64.le])⟩

/-- C16: the threshold of the last entry is never decisive: for every non-empty table, every
load and every replacement value, `getColorByLoad` returns the entry at the same table position
on the table whose last threshold is replaced as on the table itself. -/
theorem getColorByLoad_last_threshold_irrelevant (table : List ledColorConfig)
    (load threshold : Float64) (hne : table ≠ []) :
    ∃ k, k < table.length ∧
      getColorIndexByLoad table load = some k ∧
      getColorIndexByLoad (replaceLastLoad threshold table) load = some k ∧
      getColorByLoad table load = table[k]? ∧
      getColorByLoad (replaceLastLoad threshold table) load =
        (replaceLastLoad threshold table)[k]? := by
  obtain ⟨k, hk, hlt⟩ := getColorIndexByLoad_isSome load table hne
  have hrep := getColorIndexByLoad_replaceLastLoad threshold load table
  refine ⟨k, hlt, hk, by rw [hrep, hk], ?_, ?_⟩
  · rw [getColorByLoad_eq_getElem?_index, hk]
    rfl
  · rw [getColorByLoad_eq_getElem?_index, hrep, hk]
    rfl

/-- C16, at a concrete input: the table scaled for 4 cores, the load 20 and the last threshold
replaced by 100. -/
theorem getColorByLoad_last_threshold_irrelevant_witness :
    scaledColorsByLoad 4 ≠ [] ∧
    ∃ k, k < (scaledColorsByLoad 4).length ∧
      getColorIndexByLoad (scaledColorsByLoad 4) (.fin 20) = some k ∧
      getColorIndexByLoad (replaceLastLoad (.fin 100) (scaledColorsByLoad 4)) (.fin 20) =
        some k ∧
      getColorByLoad (scaledColorsByLoad 4) (.fin 20) = (scaledColorsByLoad 4)[k]? ∧
      getColorByLoad (replaceLastLoad (.fin 100) (scaledColorsByLoad 4)) (.fin 20) =
        (replaceLastLoad (.fin 100) (scaledColorsByLoad 4))[k]? :=
  ⟨scaledColorsByLoad_ne_nil 4,
    getColorByLoad_last_threshold_irrelevant (scaledColorsByLoad 4) (.fin 20) (.fin 100)
      (scaledColorsByLoad_ne_nil 4)⟩

/-- C18: for every core count `numCPU ≥ 1` and every sequence of ticks, any two consecutive
device writes of `loadAverageMonitor` carry different command strings: the entries of the scaled
table have pairwise distinct (colour, brightness, blink) triples, and entries of the table with
distinct triples get distinct commands. -/
theorem loadAverageMonitor_commands_change (numCPU : Nat) (_hcpu : 1 ≤ numCPU)
    (ticks : List Tick) :
    ∃ last events, loadAverageMonitor (scaledColorsByLoad numCPU) ticks = some (last, events) ∧
      AdjacentDistinct (writtenCommands events) ∧
      ((scaledColorsByLoad numCPU).map ledColorConfig.visual).Nodup ∧
      (∀ a ∈ scaledColorsByLoad numCPU, ∀ b ∈ scaledColorsByLoad numCPU,
        a.visual ≠ b.visual → ringCommand a ≠ ringCommand b) := by
  obtain ⟨last, events, hrun, hw⟩ :=
    loadAverageMonitor_writtenStates (scaledColorsByLoad numCPU) (scaledColorsByLoad_ne_nil numCPU)
      (scaledColorsByLoad_not_nan numCPU)
      (fun h => scaledColorsByLoad_ne_zero numCPU _ h rfl) ticks
  refine ⟨last, events, hrun, ?_, ?_, ?_⟩
  · rw [loop_writtenCommands _ ticks _ last events hrun, hw]
    apply AdjacentDistinct.map_of_injOn ringCommand (· ∈ scaledColorsByLoad numCPU)
      (ringCommand_injOn_scaled numCPU)
    · intro x hx
      exact resolvedStates_mem (dedupAdjacent_mem _ hx)
    · exact dedupAdjacent_adjacentDistinct _
  · rw [scaledColorsByLoad_visual]
    exact colorsByLoad_visual_nodup
  · intro a ha b hb hvis hcmd
    exact hvis (by rw [ringCommand_injOn_scaled numCPU a b ha hb hcmd])

/-- C18, at a concrete input: on 4 cores, the loads 0.3, 0.3, 0.9 with a failed sample in
between. -/
theorem loadAverageMonitor_commands_change_witness :
    1 ≤ 4 ∧
    ∃ last events,
      loadAverageMonitor (scaledColorsByLoad 4)
        [⟨(.fin 0.3, none), none⟩, ⟨(.fin (-1), some "no data"), none⟩,
          ⟨(.fin 0.3, none), some "EIO"⟩, ⟨(.fin 0.9, none), none⟩] = some (last, events) ∧
      AdjacentDistinct (writtenCommands events) ∧
      ((scaledColorsByLoad 4).map ledColorConfig.visual).Nodup ∧
      (∀ a ∈ scaledColorsByLoad 4, ∀ b ∈ scaledColorsByLoad 4,
        a.visual ≠ b.visual → ringCommand a ≠ ringCommand b) :=
  ⟨by decide, loadAverageMonitor_commands_change 4 (by decide) _⟩

/-- C19 (as stated, refuted): on the table the program holds, resolution does not depend on the
load per core only.  With 29 cores the float64 load 0.58 is not below the second threshold
(the product of the float64 0.02 by 29 rounds to the float64 0.58) and resolves to position 2,
while the quotient of 0.58 by 29 rounds below the float64 0.02 and resolves to position 1 on the
unscaled table. -/
theorem getColorByLoad_load_per_core_counterexample :
    ¬ (∀ (numCPU : Nat), 1 ≤ numCPU → ∀ load : Float64,
        getColorIndexByLoad (scaledColorsByLoad64 numCPU) load =
          getColorIndexByLoad colorsByLoad64 (load.div64 (Float64.ofInt64 numCPU)) ∧
        (getColorByLoad (scaledColorsByLoad64 numCPU) load).map ledColorConfig.visual =
          (getColorByLoad colorsByLoad64 (load.div64 (Float64.ofInt64 numCPU))).map
            ledColorConfig.visual) := by
  intro h
  have h29 := (h 29 (by decide) (Float64.round 0.58)).1
  rw [scaledColorsByLoad64_index_29, colorsByLoad64_index_29] at h29
  exact absurd h29 (by decide)

/-- C19 (amended): for every core count `numCPU ≥ 1` and every finite load `x` for which the
float64 products of the thresholds by the core count and the float64 quotient of the load by the
core count are exact, `getColorByLoad` on the scaled table returns for `x` the entry at the same
table position, with the same colour, brightness and blink pattern, as `getColorByLoad` returns
on the unscaled table for `x / numCPU`. -/
theorem getColorByLoad_load_per_core_exact (numCPU : Nat) (hcpu : 1 ≤ numCPU) (x : ℚ)
    (hprod : ∀ e ∈ colorsByLoad64,
      e.load.mul64 (Float64.ofInt64 numCPU) = e.load.mul (Float64.ofInt numCPU))
    (hquot : (Float64.fin x).div64 (Float64.ofInt64 numCPU) = .fin (x / (numCPU : ℚ))) :
    getColorIndexByLoad (scaledColorsByLoad64 numCPU) (.fin x) =
      getColorIndexByLoad colorsByLoad64 ((Float64.fin x).div64 (Float64.ofInt64 numCPU)) ∧
    (getColorByLoad (scaledColorsByLoad64 numCPU) (.fin x)).map ledColorConfig.visual =
      (getColorByLoad colorsByLoad64 ((Float64.fin x).div64 (Float64.ofInt64 numCPU))).map
        ledColorConfig.visual := by
  have hc : (0 : ℚ) < ((numCPU : ℤ) : ℚ) := by exact_mod_cast hcpu
  have hcast : ((numCPU : ℤ) : ℚ) = (numCPU : ℚ) := by norm_cast
  have hmap : scaledColorsByLoad64 numCPU =
      colorsByLoad64.map (ledColorConfig.scaled (.fin ((numCPU : ℤ) : ℚ))) := by
    rw [scaledColorsByLoad64_eq_map]
    apply List.map_congr_left
    intro e he
    have := hprod e he
    simp only [ledColorConfig.scaledWith, ledColorConfig.scaled, this, Float64.ofInt]
  rw [hquot, hmap, getColorIndexByLoad_map_scaled x _ hc, getColorByLoad_map_scaled x _ hc, hcast]
  refine ⟨rfl, ?_⟩
  cases getColorByLoad colorsByLoad64 (.fin (x / (numCPU : ℚ))) <;> rfl

/-- C19 (amended), at a concrete input: 4 cores and the load 1, that is 0.25 per core; the
products by 4 and the quotient are exact. -/
theorem getColorByLoad_load_per_core_exact_witness :
    1 ≤ 4 ∧
    (∀ e ∈ colorsByLoad64,
      e.load.mul64 (Float64.ofInt64 (4 : ℕ)) = e.load.mul (Float64.ofInt (4 : ℕ))) ∧
    (Float64.fin 1).div64 (Float64.ofInt64 (4 : ℕ)) = .fin (1 / ((4 : ℕ) : ℚ)) ∧
    getColorIndexByLoad (scaledColorsByLoad64 4) (.fin 1) =
      getColorIndexByLoad colorsByLoad64 ((Float64.fin 1).div64 (Float64.ofInt64 (4 : ℕ))) ∧
    (getColorByLoad (scaledColorsByLoad64 4) (.fin 1)).map ledColorConfig.visual =
      (getColorByLoad colorsByLoad64 ((Float64.fin 1).div64 (Float64.ofInt64 (4 : ℕ)))).map
        ledColorConfig.visual :=
  ⟨by decide, colorsByLoad64_products_exact_four, quotient_exact_one_by_four,
    getColorByLoad_load_per_core_exact 4 (by decide) 1 colorsByLoad64_products_exact_four
      quotient_exact_one_by_four⟩

end Nuc1
